import Mathlib

/-
Verification of the configuration resolution and validation engine of
gh-actions-scaler (src/config.rs and src/config/resolver.rs), as a shallow
embedding in Lean. The process environment and the filesystem are modelled
as functions from names/paths to results; machine integers (u16, u32) are
modelled as Nat (no arithmetic is performed on them, they are only compared
with 0 and copied).
-/

namespace GhScaler

/-- ConfigError (src/config.rs): the error taxonomy of the engine. The io::Error,
serde parse error and env::VarError causes are modelled as strings. -/
inductive ConfigError where
  | ReadFailure (path : String) (cause : String)
  | ParseFailure (path : String) (cause : String)
  | UnresolvedEnvironmentVariable (name : String) (cause : String)
  | UnresolvedFileVariable (path : String) (cause : String)
  | ValidationFailure (message : String)
  deriving DecidableEq

instance {ε α : Type} [DecidableEq ε] [DecidableEq α] : DecidableEq (Except ε α) := fun a b =>
  match a, b with
  | .ok x, .ok y =>
      if h : x = y then isTrue (congrArg Except.ok h)
      else isFalse (fun hh => h (Except.ok.inj hh))
  | .error x, .error y =>
      if h : x = y then isTrue (congrArg Except.error h)
      else isFalse (fun hh => h (Except.error.inj hh))
  | .ok _, .error _ => isFalse Except.noConfusion
  | .error _, .ok _ => isFalse Except.noConfusion

/-- The ambient process state read by variable resolution: env models env::var,
fs models fs::read_to_string; each lookup yields a value or an error cause. -/
structure World where
  env : String → Except String String
  fs : String → Except String String

/-- One lookup side effect performed during a resolve pass: an env::var call or
an fs::read_to_string call. Recorded so that theorems can speak about which
tokens get evaluated. -/
inductive Effect where
  | envRead (name : String)
  | fileRead (path : String)
  deriving DecidableEq

/-- One regex match, or one literal character copied between matches, of the
single left-to-right pass of ConfigResolver::resolve
(src/config/resolver.rs) with the pattern (\x24\x24)|\x24\x7b(file:)?([^\x7d]+)\x7d. -/
inductive Tok where
  | lit (c : Char)
  | dollar
  | envVar (name : String)
  | fileVar (path : String)
  deriving DecidableEq

/-- Split a character list at the first closing brace: the body matched by
[^\x7d]+ followed by the closing brace. none when there is no closing brace or
when the body would be empty (the regex requires at least one body character). -/
def splitBrace (cs : List Char) : Option (List Char × List Char) :=
  match cs.dropWhile (fun c => c != '}') with
  | _ :: rest =>
      -- the head of this dropWhile, when present, is necessarily the closing brace
      if (cs.takeWhile (fun c => c != '}')).isEmpty then none
      else some (cs.takeWhile (fun c => c != '}'), rest)
  | [] => none

/-- Classify a token body, following the leftmost-first capture semantics of
(file:)?([^\x7d]+): the optional group matches when the body starts with "file:"
and at least one body character remains for the mandatory group; otherwise the
whole body is an environment-variable name (so the body "file:" alone is an
environment variable named "file:"). -/
def mkTok (body : List Char) : Tok :=
  match body with
  | 'f' :: 'i' :: 'l' :: 'e' :: ':' :: c :: rest => .fileVar (String.mk (c :: rest))
  | _ => .envVar (String.mk body)

/-- Fuel-indexed scanner for the single regex pass of ConfigResolver::resolve:
at each position the alternative for a double dollar is tried before the
braced form, matches do not overlap, and the scan resumes right after each
match. The fuel only serves termination; tokenize supplies the input length,
which always suffices. -/
def tokenizeAux : Nat → List Char → List Tok
  | 0, _ => []
  | _ + 1, [] => []
  | fuel + 1, c :: rest =>
    if c = '$' then
      match rest with
      | [] => .lit c :: tokenizeAux fuel rest
      | c2 :: rest2 =>
        if c2 = '$' then .dollar :: tokenizeAux fuel rest2
        else if c2 = '{' then
          match splitBrace rest2 with
          | some (body, rest') => mkTok body :: tokenizeAux fuel rest'
          | none => .lit c :: tokenizeAux fuel rest
        else .lit c :: tokenizeAux fuel rest
    else .lit c :: tokenizeAux fuel rest

/-- The token stream of one input string: the matches of the single
left-to-right regex pass, with the unmatched characters as literals. -/
def tokenize (cs : List Char) : List Tok :=
  tokenizeAux cs.length cs

/-- The state threaded through Regex::replace_all with the Replacer of
ConfigVariableResolver: the output buffer dst, the first recorded error, and
the trace of lookups performed so far. -/
structure RState where
  dst : String
  err : Option ConfigError
  log : List Effect
  deriving DecidableEq

/-- ConfigVariableResolver::set_config_error: record an error only when none
has been recorded yet (the first failure wins). -/
def set_config_error (st : Option ConfigError) (e : ConfigError) : Option ConfigError :=
  match st with
  | some e0 => some e0
  | none => some e

/-- PathBuf::push of a (relative) path onto the resolver's config directory. -/
def joinPath (dir p : String) : String := dir ++ "/" ++ p

/-- str::trim_end: the string with its trailing whitespace removed (Lean's
Char.isWhitespace stands in for char::is_whitespace; they agree on all the
ASCII whitespace that configuration files contain). -/
def trimEnd (s : String) : String :=
  String.mk (s.data.reverse.dropWhile Char.isWhitespace).reverse

/-- Replacer::replace_append for one token, with the side effects of
append_env_var / append_file: a literal or a double dollar appends text, an
environment token appends the variable's value or records
UnresolvedEnvironmentVariable, a file token appends the trimmed contents of
the file at config_dir/PATH or records UnresolvedFileVariable. A failing
token appends nothing, and every lookup is logged whether it succeeds or not. -/
def stepTok (w : World) (dir : String) (st : RState) : Tok → RState
  | .lit c => { st with dst := st.dst ++ String.singleton c }
  | .dollar => { st with dst := st.dst ++ "$" }
  | .envVar name =>
    match w.env name with
    | .ok v =>
        { st with dst := st.dst ++ v, log := st.log ++ [.envRead name] }
    | .error cause =>
        { st with err := set_config_error st.err (.UnresolvedEnvironmentVariable name cause),
                  log := st.log ++ [.envRead name] }
  | .fileVar p =>
    match w.fs (joinPath dir p) with
    | .ok content =>
        { st with dst := st.dst ++ trimEnd content, log := st.log ++ [.fileRead (joinPath dir p)] }
    | .error cause =>
        { st with err := set_config_error st.err (.UnresolvedFileVariable (joinPath dir p) cause),
                  log := st.log ++ [.fileRead (joinPath dir p)] }

/-- The full pass of ConfigResolver::resolve over one input string: every match
of the single scan is processed in order (Regex::replace_all does not stop at
a failing token). -/
def resolveRun (w : World) (dir : String) (input : String) : RState :=
  (tokenize input.data).foldl (stepTok w dir) ⟨"", none, []⟩

/-- ConfigResolver::resolve: the substituted string, or the first error
recorded during the pass. -/
def resolve (w : World) (dir : String) (input : String) : Except ConfigError String :=
  match (resolveRun w dir input).err with
  | some e => .error e
  | none => .ok (resolveRun w dir input).dst

/-- ConfigResolver::resolve_or_else: resolve the input, or, when the input is
empty, compute the caller's fallback and resolve that instead. -/
def resolve_or_else (w : World) (dir : String) (input : String)
    (elseFn : Except ConfigError String) : Except ConfigError String :=
  if input = "" then
    match elseFn with
    | .error e => .error e
    | .ok v => resolve w dir v
  else resolve w dir input

/-- The error one token produces under the given world, if it fails. -/
def tokErr (w : World) (dir : String) : Tok → Option ConfigError
  | .lit _ => none
  | .dollar => none
  | .envVar name =>
    match w.env name with
    | .ok _ => none
    | .error cause => some (.UnresolvedEnvironmentVariable name cause)
  | .fileVar p =>
    match w.fs (joinPath dir p) with
    | .ok _ => none
    | .error cause => some (.UnresolvedFileVariable (joinPath dir p) cause)

/-- The text one token appends to the output buffer (a failing token appends
nothing). -/
def tokOut (w : World) (dir : String) : Tok → String
  | .lit c => String.singleton c
  | .dollar => "$"
  | .envVar name =>
    match w.env name with
    | .ok v => v
    | .error _ => ""
  | .fileVar p =>
    match w.fs (joinPath dir p) with
    | .ok content => trimEnd content
    | .error _ => ""

/-- The lookup effects one token performs. -/
def tokFx (dir : String) : Tok → List Effect
  | .lit _ => []
  | .dollar => []
  | .envVar name => [.envRead name]
  | .fileVar p => [.fileRead (joinPath dir p)]

/-- The error of the leftmost failing token in a token stream, if any. -/
def firstErr (w : World) (dir : String) : List Tok → Option ConfigError
  | [] => none
  | t :: ts =>
    match tokErr w dir t with
    | some e => some e
    | none => firstErr w dir ts

/-- Concatenation of a list of strings, in order. -/
def concatAll : List String → String
  | [] => ""
  | s :: ss => s ++ concatAll ss

/-- Byte-lexicographic order on strings as lists of characters, modelling
Ord::cmp on Rust strings (on valid UTF-8, byte order and code-point order
agree), in its non-strict form a ≤ b. -/
def lexLe : List Char → List Char → Bool
  | [], _ => true
  | _ :: _, [] => false
  | a :: as, b :: bs => if a < b then true else if b < a then false else lexLe as bs

/-- The decimal digit characters, for rendering machine numbers. -/
def digitChar (n : Nat) : Char :=
  match n with
  | 0 => '0' | 1 => '1' | 2 => '2' | 3 => '3' | 4 => '4'
  | 5 => '5' | 6 => '6' | 7 => '7' | 8 => '8' | _ => '9'

/-- The numeric value of a decimal digit character (inverse of digitChar). -/
def charVal (c : Char) : Nat :=
  match c with
  | '0' => 0 | '1' => 1 | '2' => 2 | '3' => 3 | '4' => 4
  | '5' => 5 | '6' => 6 | '7' => 7 | '8' => 8 | '9' => 9
  | _ => 0

/-- Decimal digits of a natural number, most significant first (fuel-indexed;
natRepr supplies fuel n + 1, which always suffices). -/
def natDigits : Nat → Nat → List Char
  | 0, _ => []
  | fuel + 1, n =>
    if n < 10 then [digitChar n]
    else natDigits fuel (n / 10) ++ [digitChar (n % 10)]

/-- The standard decimal rendering of a natural number, as written by
Display for the integer types in format strings. -/
def natRepr (n : Nat) : String := String.mk (natDigits (n + 1) n)

/-- The value of a decimal digit string (used to show natRepr injective). -/
def digitsToNat (cs : List Char) : Nat := cs.foldl (fun acc c => 10 * acc + charVal c) 0

/-- SshConfig (src/config.rs): all fields default to empty / zero. -/
structure SshConfig where
  host : String := ""
  port : Nat := 0
  fingerprint : String := ""
  username : String := ""
  password : String := ""
  private_key : String := ""
  private_key_passphrase : String := ""
  deriving DecidableEq

/-- RunnersConfig (src/config.rs): the per-machine runner bound. -/
structure RunnersConfig where
  max : Nat := 0
  deriving DecidableEq

/-- MachineConfig (src/config.rs): one machine entry. -/
structure MachineConfig where
  id : String := ""
  ssh : SshConfig := {}
  runners : RunnersConfig := {}
  deriving DecidableEq

/-- GithubRunnerConfig (src/config.rs). The source field name_prefix is
rendered here as namePrefix. -/
structure GithubRunnerConfig where
  namePrefix : String
  scope : String
  repo_url : String
  deriving DecidableEq

/-- GithubConfig (src/config.rs). -/
structure GithubConfig where
  personal_access_token : String
  runners : GithubRunnerConfig
  deriving DecidableEq

/-- MachineDefaultsConfig (src/config.rs). -/
structure MachineDefaultsConfig where
  ssh : SshConfig := {}
  runners : RunnersConfig := {}
  deriving DecidableEq

/-- LogLevel (src/config.rs). -/
inductive LogLevel where
  | trace | debug | info | warn | error | off
  deriving DecidableEq

/-- Config (src/config.rs): the parsed document and the resolved result share
this shape. -/
structure Config where
  log_level : LogLevel := .info
  github : GithubConfig
  machine_defaults : MachineDefaultsConfig := {}
  machines : List MachineConfig
  deriving DecidableEq

/-- str::starts_with on strings (pattern first argument is the receiver). -/
def strStartsWith (s pre : String) : Bool := pre.data.isPrefixOf s.data

/-- The auth-selection block of Config::resolve_ssh_config: choose the
(password, private_key, private_key_passphrase) triple by the order of
preferences 1) per-machine private key, 2) per-machine password, 3) default
private key, 4) default password. When a per-machine private key and password
are both set the password is dropped (the source logs a non-fatal warning). -/
def select_auth (defaults c : SshConfig) : String × String × String :=
  if c.private_key ≠ "" then
    ("", c.private_key, c.private_key_passphrase)
  else if c.password ≠ "" then
    (c.password, "", "")
  else if defaults.private_key ≠ "" then
    ("", defaults.private_key, defaults.private_key_passphrase)
  else
    (defaults.password, "", "")

/-- Config::resolve_ssh_config: merge a machine's SSH block with the defaults.
Field resolutions run in the source's struct-literal order (host, fingerprint,
username, then the selected auth triple), and after resolution at least one of
password / private_key must be non-empty. -/
def resolve_ssh_config (machine_id : String) (defaults c : SshConfig)
    (w : World) (dir : String) : Except ConfigError SshConfig :=
  let sel := select_auth defaults c
  match resolve_or_else w dir c.host
      (if defaults.host = "" then
        .error (.ValidationFailure ("'host' must be specified for machine '" ++ machine_id ++ "'."))
      else .ok defaults.host) with
  | .error e => .error e
  | .ok host =>
  match resolve w dir c.fingerprint with
  | .error e => .error e
  | .ok fingerprint =>
  match resolve_or_else w dir c.username
      (if defaults.username = "" then
        .error (.ValidationFailure ("'username' must be specified for machine '" ++ machine_id ++ "'."))
      else .ok defaults.username) with
  | .error e => .error e
  | .ok username =>
  match resolve w dir sel.1 with
  | .error e => .error e
  | .ok password =>
  match resolve w dir sel.2.1 with
  | .error e => .error e
  | .ok private_key =>
  match resolve w dir sel.2.2 with
  | .error e => .error e
  | .ok private_key_passphrase =>
  if password = "" ∧ private_key = "" then
    .error (.ValidationFailure ("'password' or 'private_key' must be specified for machine '" ++ machine_id ++ "'."))
  else
    .ok { host := host,
          port := if c.port ≠ 0 then c.port else if defaults.port ≠ 0 then defaults.port else 22,
          fingerprint := fingerprint,
          username := username,
          password := password,
          private_key := private_key,
          private_key_passphrase := private_key_passphrase }

/-- Config::resolve_runners_config: max = per-machine if non-zero, else default
if non-zero, else 16. The source wraps this in Ok but never fails. -/
def resolve_runners_config (defaults c : RunnersConfig) : RunnersConfig :=
  ⟨if c.max ≠ 0 then c.max else if defaults.max ≠ 0 then defaults.max else 16⟩

/-- Config::resolve_github_config: resolve the four GitHub fields, then run the
validation checks in source order. -/
def resolve_github_config (c : GithubConfig) (w : World) (dir : String) :
    Except ConfigError GithubConfig :=
  match resolve w dir c.personal_access_token with
  | .error e => .error e
  | .ok pat =>
  match resolve w dir c.runners.namePrefix with
  | .error e => .error e
  | .ok np =>
  match resolve w dir c.runners.scope with
  | .error e => .error e
  | .ok sc =>
  match resolve w dir c.runners.repo_url with
  | .error e => .error e
  | .ok ru =>
  if pat = "" then
    .error (.ValidationFailure "An empty or missing value in 'github.personal_access_token'. A GitHub personal access token must start with 'ghp_'.")
  else if !strStartsWith pat "ghp_" then
    .error (.ValidationFailure "An invalid value in 'github.personal_access_token'. A GitHub personal access token must start with 'ghp_'.")
  else if np = "" then
    .error (.ValidationFailure "An empty value in 'github.runners.name_prefix'.")
  else if sc ≠ "repo" then
    .error (.ValidationFailure ("An unsupported value '" ++ sc ++ "' in 'github.runners.scope'. 'repo' is the only supported value at the moment."))
  else if ru = "" then
    .error (.ValidationFailure "An empty or missing URL in 'github.runners.repo_url'.")
  else if !(strStartsWith ru "http://" || strStartsWith ru "https://") then
    .error (.ValidationFailure ("An invalid URL '" ++ ru ++ "' in github.runners.repo_url."))
  else
    .ok ⟨pat, ⟨np, sc, ru⟩⟩

/-- Config::resolve_default_ssh_config: resolve the defaults-level SSH block;
the fingerprint is forced empty (with a non-fatal warning when one was
supplied) and the port is copied. -/
def resolve_default_ssh_config (c : SshConfig) (w : World) (dir : String) :
    Except ConfigError SshConfig :=
  match resolve w dir c.host with
  | .error e => .error e
  | .ok host =>
  match resolve w dir c.username with
  | .error e => .error e
  | .ok username =>
  match resolve w dir c.password with
  | .error e => .error e
  | .ok password =>
  match resolve w dir c.private_key with
  | .error e => .error e
  | .ok private_key =>
  match resolve w dir c.private_key_passphrase with
  | .error e => .error e
  | .ok private_key_passphrase =>
  .ok { host := host, port := c.port, fingerprint := "", username := username,
        password := password, private_key := private_key,
        private_key_passphrase := private_key_passphrase }

/-- Config::resolve_machine_defaults_config. -/
def resolve_machine_defaults_config (c : MachineDefaultsConfig) (w : World) (dir : String) :
    Except ConfigError MachineDefaultsConfig :=
  match resolve_default_ssh_config c.ssh w dir with
  | .error e => .error e
  | .ok ssh => .ok ⟨ssh, ⟨c.runners.max⟩⟩

/-- The message of the duplicate-id failure of MachineIdGenerator::new. -/
def dupMsg (id : String) : String := "A duplicate machine ID '" ++ id ++ "' was found."

/-- MachineIdGenerator::new (src/config.rs): collect every non-empty raw id of
the machine list into the id set, failing on the first raw id already seen.
The HashSet is modelled as a duplicate-free list. -/
def collectIds : List MachineConfig → List String → Except ConfigError (List String)
  | [], acc => .ok acc
  | c :: rest, acc =>
    if c.id = "" then collectIds rest acc
    else if c.id ∈ acc then .error (.ValidationFailure (dupMsg c.id))
    else collectIds rest (acc ++ [c.id])

/-- The synthesized id machine-n. -/
def machineIdNum (n : Nat) : String := "machine-" ++ natRepr n

/-- The loop of MachineIdGenerator::generate: starting from the counter value,
skip every candidate machine-n already claimed, then claim and return the
first free one. The counter stays at the chosen value. The fuel only serves
termination; the callers supply one more than the size of the id set, which
always suffices because the set is duplicate-free. -/
def genFresh : Nat → Nat → List String → String × Nat × List String
  | 0, next, used => (machineIdNum next, next, used ++ [machineIdNum next])
  | fuel + 1, next, used =>
    if machineIdNum next ∈ used then genFresh fuel (next + 1) used
    else (machineIdNum next, next, used ++ [machineIdNum next])

/-- MachineIdGenerator::generate: a machine whose id resolves to a non-empty
string keeps it verbatim (the id set and counter are unchanged); otherwise a
fresh machine-n is synthesized and reserved. -/
def generate (w : World) (dir : String) (cfg : MachineConfig) (next : Nat)
    (used : List String) : Except ConfigError (String × Nat × List String) :=
  match resolve w dir cfg.id with
  | .error e => .error e
  | .ok sid =>
    if sid ≠ "" then .ok (sid, next, used)
    else
      let r := genFresh (used.length + 1) next used
      .ok r

/-- The per-machine loop of Config::resolve_machine_configs: in document order,
generate the id, merge the SSH block, merge the runners block. -/
def resolve_machine_loop (defaults : MachineDefaultsConfig) (w : World) (dir : String) :
    List MachineConfig → Nat → List String → List MachineConfig →
    Except ConfigError (List MachineConfig)
  | [], _, _, out => .ok out
  | c :: rest, next, used, out =>
    match generate w dir c next used with
    | .error e => .error e
    | .ok (id, next', used') =>
      match resolve_ssh_config id defaults.ssh c.ssh w dir with
      | .error e => .error e
      | .ok ssh =>
        resolve_machine_loop defaults w dir rest next' used'
          (out ++ [⟨id, ssh, resolve_runners_config defaults.runners c.runners⟩])

/-- The ordering by machine id used for the final sort (Vec::sort_by with
String cmp on the ids). -/
def machineLe (a b : MachineConfig) : Prop := lexLe a.id.data b.id.data = true

instance : DecidableRel machineLe :=
  fun a b => instDecidableEqBool (lexLe a.id.data b.id.data) true

/-- The message of the empty-machine-list failure. -/
def emptyMachinesMsg : String := "There must be at least one machine in the configuration."

/-- Config::resolve_machine_configs: pre-scan the raw ids, resolve each machine
in document order, reject an empty result, and sort by id. Vec::sort_by is a
stable sort, so it is embedded as the (stable) insertion sort; any stable sort
with the same comparator yields the same list. -/
def resolve_machine_configs (defaults : MachineDefaultsConfig) (cfgs : List MachineConfig)
    (w : World) (dir : String) : Except ConfigError (List MachineConfig) :=
  match collectIds cfgs [] with
  | .error e => .error e
  | .ok used0 =>
    match resolve_machine_loop defaults w dir cfgs 1 used0 [] with
    | .error e => .error e
    | .ok out =>
      if out.isEmpty then .error (.ValidationFailure emptyMachinesMsg)
      else .ok (List.insertionSort machineLe out)

/-- Config::resolve_config: machine defaults first, then the GitHub block, then
the machine list (that is the evaluation order of the source's struct
literal). -/
def resolve_config (parsed : Config) (w : World) (dir : String) :
    Except ConfigError Config :=
  match resolve_machine_defaults_config parsed.machine_defaults w dir with
  | .error e => .error e
  | .ok md =>
  match resolve_github_config parsed.github w dir with
  | .error e => .error e
  | .ok gh =>
  match resolve_machine_configs md parsed.machines w dir with
  | .error e => .error e
  | .ok ms => .ok ⟨parsed.log_level, gh, md, ms⟩

/-- The escaping Debug applies to the text of a str (the source formats
non-secret fields with the standard Debug of String). Control characters
beyond tab, newline and carriage return are left as-is in this model; the
theorems only depend on secret fields never reaching the output. -/
def escChar (c : Char) : List Char :=
  if c = '"' then ['\\', '"']
  else if c = '\\' then ['\\', '\\']
  else if c = '\n' then ['\\', 'n']
  else if c = '\t' then ['\\', 't']
  else if c = '\r' then ['\\', 'r']
  else [c]

/-- Debug rendering of a string value: quoted and escaped. -/
def fmtStr (s : String) : String :=
  "\"" ++ String.mk (s.data.flatMap escChar) ++ "\""

/-- mask_credential (src/config.rs): an empty credential renders as the empty
string, any other value renders as the fixed marker. -/
def mask_credential (v : String) : String :=
  if v = "" then fmtStr "" else fmtStr "[REDACTED]"

/-- The derived Debug rendering of GithubRunnerConfig (all fields plain). -/
def debugGithubRunnerConfig (c : GithubRunnerConfig) : String :=
  "GithubRunnerConfig \x7b name_prefix: " ++ fmtStr c.namePrefix ++
  ", scope: " ++ fmtStr c.scope ++
  ", repo_url: " ++ fmtStr c.repo_url ++ " \x7d"

/-- The manual Debug impl for GithubConfig: the token is masked, the runner
settings are rendered by their derived Debug. -/
def debugGithubConfig (g : GithubConfig) : String :=
  "GithubConfig \x7b personal_access_token: " ++ mask_credential g.personal_access_token ++
  ", runners: " ++ debugGithubRunnerConfig g.runners ++ " \x7d"

/-- The manual Debug impl for SshConfig: password, private key and passphrase
are masked, the other fields are rendered plainly. -/
def debugSshConfig (s : SshConfig) : String :=
  "SshConfig \x7b host: " ++ fmtStr s.host ++
  ", port: " ++ natRepr s.port ++
  ", fingerprint: " ++ fmtStr s.fingerprint ++
  ", username: " ++ fmtStr s.username ++
  ", password: " ++ mask_credential s.password ++
  ", private_key: " ++ mask_credential s.private_key ++
  ", private_key_passphrase: " ++ mask_credential s.private_key_passphrase ++ " \x7d"

/-- The non-empty raw ids of a machine list, in order. -/
def explicitIds (cfgs : List MachineConfig) : List String :=
  (cfgs.map MachineConfig.id).filter (fun s => s ≠ "")

theorem splitBrace_length {cs body rest : List Char} (h : splitBrace cs = some (body, rest)) :
    rest.length < cs.length := by
  unfold splitBrace at h
  cases hd : cs.dropWhile (fun c => c != '}') with
  | nil => rw [hd] at h; exact absurd h (by simp)
  | cons c rest' =>
    rw [hd] at h
    replace h : (if (cs.takeWhile (fun c => c != '}')).isEmpty then none
        else some (cs.takeWhile (fun c => c != '}'), rest')) = some (body, rest) := h
    by_cases he : (cs.takeWhile (fun c => c != '}')).isEmpty
    · rw [if_pos he] at h; exact absurd h (by simp)
    · rw [if_neg he] at h
      have h2 : rest' = rest := congrArg Prod.snd (Option.some.inj h)
      subst h2
      have hlen : cs.takeWhile (fun c => c != '}') ++ (c :: rest') = cs := by
        rw [← hd]; exact List.takeWhile_append_dropWhile _ _
      have := congrArg List.length hlen
      simp [List.length_append] at this
      omega

theorem tokenizeAux_nil : ∀ f, tokenizeAux f [] = [] := by
  intro f; cases f <;> rfl

theorem tokenizeAux_fuel : ∀ (f g : Nat) (cs : List Char), cs.length ≤ f → cs.length ≤ g →
    tokenizeAux f cs = tokenizeAux g cs := by
  intro f
  induction f with
  | zero =>
    intro g cs hf _
    have : cs = [] := List.length_eq_zero.mp (Nat.le_zero.mp hf)
    subst this; rw [tokenizeAux_nil, tokenizeAux_nil]
  | succ f ih =>
    intro g cs hf hg
    cases g with
    | zero =>
      have : cs = [] := List.length_eq_zero.mp (Nat.le_zero.mp hg)
      subst this; rw [tokenizeAux_nil, tokenizeAux_nil]
    | succ g =>
      cases cs with
      | nil => rw [tokenizeAux_nil, tokenizeAux_nil]
      | cons c rest =>
        simp only [List.length_cons] at hf hg
        by_cases hc : c = '$'
        · simp only [tokenizeAux, if_pos hc]
          cases rest with
          | nil => rw [tokenizeAux_nil, tokenizeAux_nil]
          | cons c2 rest2 =>
            simp only [List.length_cons] at hf hg
            by_cases hc2 : c2 = '$'
            · simp only [if_pos hc2]
              exact congrArg _ (ih g rest2 (by omega) (by omega))
            · simp only [if_neg hc2]
              by_cases hc3 : c2 = '{'
              · simp only [if_pos hc3]
                cases hsb : splitBrace rest2 with
                | none =>
                  simp only [hsb]
                  exact congrArg _ (ih g (c2 :: rest2) (by simp; omega) (by simp; omega))
                | some pr =>
                  obtain ⟨body, rest'⟩ := pr
                  simp only [hsb]
                  have hl := splitBrace_length hsb
                  exact congrArg _ (ih g rest' (by omega) (by omega))
              · simp only [if_neg hc3]
                exact congrArg _ (ih g (c2 :: rest2) (by simp; omega) (by simp; omega))
        · simp only [tokenizeAux, if_neg hc]
          exact congrArg _ (ih g rest (by omega) (by omega))

theorem tokenizeAux_lit (f : Nat) {c : Char} (rest : List Char) (hc : c ≠ '$') :
    tokenizeAux (f + 1) (c :: rest) = .lit c :: tokenizeAux f rest := by
  simp [tokenizeAux, hc]

theorem tokenizeAux_dollar2 (f : Nat) (rest : List Char) :
    tokenizeAux (f + 1) ('$' :: '$' :: rest) = .dollar :: tokenizeAux f rest := by
  simp [tokenizeAux]

theorem tokenizeAux_brace_some (f : Nat) {rest body rest' : List Char}
    (hsb : splitBrace rest = some (body, rest')) :
    tokenizeAux (f + 1) ('$' :: '{' :: rest) = mkTok body :: tokenizeAux f rest' := by
  simp [tokenizeAux, hsb]

theorem tokenizeAux_brace_none (f : Nat) {rest : List Char} (hsb : splitBrace rest = none) :
    tokenizeAux (f + 1) ('$' :: '{' :: rest) = .lit '$' :: tokenizeAux f ('{' :: rest) := by
  simp [tokenizeAux, hsb]

theorem tokenize_nil : tokenize [] = [] := rfl

theorem tokenize_lit {c : Char} (rest : List Char) (hc : c ≠ '$') :
    tokenize (c :: rest) = .lit c :: tokenize rest := by
  unfold tokenize
  rw [List.length_cons, tokenizeAux_lit _ _ hc]

theorem tokenize_dollar2 (rest : List Char) :
    tokenize ('$' :: '$' :: rest) = .dollar :: tokenize rest := by
  unfold tokenize
  rw [List.length_cons, List.length_cons, tokenizeAux_dollar2]
  exact congrArg _ (tokenizeAux_fuel (rest.length + 1) rest.length rest (by omega) (by omega))

theorem tokenize_brace_some {rest body rest' : List Char}
    (hsb : splitBrace rest = some (body, rest')) :
    tokenize ('$' :: '{' :: rest) = mkTok body :: tokenize rest' := by
  unfold tokenize
  rw [List.length_cons, List.length_cons, tokenizeAux_brace_some _ hsb]
  have hl := splitBrace_length hsb
  exact congrArg _ (tokenizeAux_fuel (rest.length + 1) rest'.length rest' (by omega) (by omega))

theorem tokenize_brace_none {rest : List Char} (hsb : splitBrace rest = none) :
    tokenize ('$' :: '{' :: rest) = .lit '$' :: tokenize ('{' :: rest) := by
  unfold tokenize
  rw [List.length_cons, List.length_cons, tokenizeAux_brace_none _ hsb]

theorem tokenize_no_dollar : ∀ (cs : List Char), (∀ c ∈ cs, c ≠ '$') →
    tokenize cs = cs.map .lit := by
  intro cs
  induction cs with
  | nil => intro _; rfl
  | cons c rest ih =>
    intro h
    rw [tokenize_lit rest (h c (by simp)), ih (fun c hc => h c (by simp [hc])), List.map_cons]

theorem takeWhile_brace (pre rest : List Char) (hpre : '}' ∉ pre) :
    (pre ++ '}' :: rest).takeWhile (fun c => c != '}') = pre := by
  induction pre with
  | nil => simp [List.takeWhile_cons]
  | cons c cs ih =>
    have hc : c ≠ '}' := fun h => hpre (by simp [h])
    have hcs : '}' ∉ cs := fun h => hpre (by simp [h])
    simp only [List.cons_append, List.takeWhile_cons]
    rw [if_pos (by simp [hc]), ih hcs]

theorem dropWhile_brace (pre rest : List Char) (hpre : '}' ∉ pre) :
    (pre ++ '}' :: rest).dropWhile (fun c => c != '}') = '}' :: rest := by
  induction pre with
  | nil => simp [List.dropWhile_cons]
  | cons c cs ih =>
    have hc : c ≠ '}' := fun h => hpre (by simp [h])
    have hcs : '}' ∉ cs := fun h => hpre (by simp [h])
    simp only [List.cons_append, List.dropWhile_cons]
    rw [if_pos (by simp [hc]), ih hcs]

theorem splitBrace_append {pre rest : List Char} (hpre : '}' ∉ pre) (hne : pre ≠ []) :
    splitBrace (pre ++ '}' :: rest) = some (pre, rest) := by
  unfold splitBrace
  rw [dropWhile_brace pre rest hpre]
  simp only [takeWhile_brace pre rest hpre]
  rw [if_neg (by simpa [List.isEmpty_iff] using hne)]

theorem mkTok_env (body : List Char)
    (h : ∀ c cs, body ≠ 'f' :: 'i' :: 'l' :: 'e' :: ':' :: c :: cs) :
    mkTok body = .envVar (String.mk body) := by
  unfold mkTok
  split
  · rename_i c cs
    exact absurd rfl (h c cs)
  · rfl

theorem foldl_stepTok (w : World) (dir : String) : ∀ (ts : List Tok) (st : RState),
    ts.foldl (stepTok w dir) st =
      ⟨st.dst ++ concatAll (ts.map (tokOut w dir)),
       (match st.err with | some e0 => some e0 | none => firstErr w dir ts),
       st.log ++ ts.flatMap (tokFx dir)⟩ := by
  intro ts
  induction ts with
  | nil =>
    intro st
    cases st with
    | mk d e l =>
      simp only [List.foldl_nil, List.map_nil, concatAll, String.append_empty,
        List.flatMap_nil, List.append_nil, firstErr]
      cases e <;> rfl
  | cons t ts ih =>
    intro st
    rw [List.foldl_cons, ih]
    cases t with
    | lit c =>
      simp only [stepTok, tokOut, tokErr, tokFx, firstErr, List.map_cons, concatAll,
        List.flatMap_cons, List.nil_append, String.append_assoc]
    | dollar =>
      simp only [stepTok, tokOut, tokErr, tokFx, firstErr, List.map_cons, concatAll,
        List.flatMap_cons, List.nil_append, String.append_assoc]
    | envVar name =>
      cases hv : w.env name with
      | ok v =>
        simp only [stepTok, tokOut, tokErr, tokFx, firstErr, hv, List.map_cons, concatAll,
          List.flatMap_cons, String.append_assoc, List.append_assoc, List.singleton_append]
      | error cause =>
        cases he : st.err with
        | some e0 =>
          simp only [stepTok, tokOut, tokErr, tokFx, firstErr, hv, he, set_config_error,
            List.map_cons, concatAll, List.flatMap_cons, String.append_assoc,
            List.append_assoc, List.singleton_append, String.append_empty,
            String.empty_append]
        | none =>
          simp only [stepTok, tokOut, tokErr, tokFx, firstErr, hv, he, set_config_error,
            List.map_cons, concatAll, List.flatMap_cons, String.append_assoc,
            List.append_assoc, List.singleton_append, String.append_empty,
            String.empty_append]
    | fileVar p =>
      cases hv : w.fs (joinPath dir p) with
      | ok content =>
        simp only [stepTok, tokOut, tokErr, tokFx, firstErr, hv, List.map_cons, concatAll,
          List.flatMap_cons, String.append_assoc, List.append_assoc, List.singleton_append]
      | error cause =>
        cases he : st.err with
        | some e0 =>
          simp only [stepTok, tokOut, tokErr, tokFx, firstErr, hv, he, set_config_error,
            List.map_cons, concatAll, List.flatMap_cons, String.append_assoc,
            List.append_assoc, List.singleton_append, String.append_empty,
            String.empty_append]
        | none =>
          simp only [stepTok, tokOut, tokErr, tokFx, firstErr, hv, he, set_config_error,
            List.map_cons, concatAll, List.flatMap_cons, String.append_assoc,
            List.append_assoc, List.singleton_append, String.append_empty,
            String.empty_append]

theorem resolveRun_err (w : World) (dir input : String) :
    (resolveRun w dir input).err = firstErr w dir (tokenize input.data) := by
  unfold resolveRun
  rw [foldl_stepTok]

theorem resolveRun_log (w : World) (dir input : String) :
    (resolveRun w dir input).log = (tokenize input.data).flatMap (tokFx dir) := by
  unfold resolveRun
  rw [foldl_stepTok]
  exact List.nil_append _

theorem resolveRun_dst (w : World) (dir input : String) :
    (resolveRun w dir input).dst = concatAll ((tokenize input.data).map (tokOut w dir)) := by
  unfold resolveRun
  rw [foldl_stepTok]
  exact String.empty_append _

theorem resolve_eq (w : World) (dir input : String) :
    resolve w dir input =
      match firstErr w dir (tokenize input.data) with
      | some e => .error e
      | none => .ok (concatAll ((tokenize input.data).map (tokOut w dir))) := by
  unfold resolve
  rw [resolveRun_err, resolveRun_dst]

theorem firstErr_lits (w : World) (dir : String) : ∀ cs : List Char,
    firstErr w dir (cs.map .lit) = none := by
  intro cs
  induction cs with
  | nil => rfl
  | cons c cs ih => simp [firstErr, tokErr, ih]

theorem flatMap_tokFx_lits (dir : String) : ∀ cs : List Char,
    (cs.map Tok.lit).flatMap (tokFx dir) = [] := by
  intro cs
  induction cs with
  | nil => rfl
  | cons c cs ih => simp [tokFx, ih]

theorem concat_lits (w : World) (dir : String) : ∀ cs : List Char,
    concatAll ((cs.map Tok.lit).map (tokOut w dir)) = String.mk cs := by
  intro cs
  induction cs with
  | nil => rfl
  | cons c cs ih =>
    simp only [List.map_cons, concatAll, tokOut, ih]
    apply String.ext
    rw [String.data_append]
    rfl

theorem string_ne_data {n : String} (h : n ≠ "") : n.data ≠ [] := by
  intro hd
  exact h (String.ext hd)

/-- C2: the claim that tokens after the first failing one are not evaluated is
false on the code: Regex::replace_all invokes the Replacer on every match, so
append_env_var performs its env::var lookup for the second failing token too;
only the error recording is first-wins. Here the input has two failing tokens
and the lookup log contains both reads. -/
theorem c2_counterexample :
    resolve ⟨fun _ => .error "NotPresent", fun _ => .error "NotFound"⟩ "." "${A}${B}"
      = .error (.UnresolvedEnvironmentVariable "A" "NotPresent") ∧
    (resolveRun ⟨fun _ => .error "NotPresent", fun _ => .error "NotFound"⟩ "." "${A}${B}").log
      = [.envRead "A", .envRead "B"] := by
  decide

/-- C2 (amended): resolving a string is all-or-nothing in its result: the error
returned is the failure of the leftmost failing token of the single
left-to-right scan; however the tokens after the first failing one are still
evaluated (every environment lookup and file read of the scan is performed),
and their failures are discarded. -/
theorem c2_first_error_returned (w : World) (dir input : String) :
    resolve w dir input =
      (match firstErr w dir (tokenize input.data) with
       | some e => Except.error e
       | none => Except.ok (concatAll ((tokenize input.data).map (tokOut w dir)))) ∧
    (resolveRun w dir input).log = (tokenize input.data).flatMap (tokFx dir) :=
  ⟨resolve_eq w dir input, resolveRun_log w dir input⟩

/-- C6: substitution is a single non-recursive left-to-right pass. A double
dollar always yields a literal dollar, even glued to a braced token: for every
FOO free of dollars the input made of two dollars, an opening brace, FOO and a
closing brace resolves to the literal text of a braced FOO, with no lookup
performed at all. And substitution outputs are inserted verbatim, never
rescanned: an environment variable's value is copied as-is, whatever tokens it
may itself contain. -/
theorem c6_double_dollar_literal (w : World) (dir : String) :
    (∀ FOO : String, '$' ∉ FOO.data →
      resolve w dir ("$$\x7b" ++ FOO ++ "\x7d") = .ok ("$\x7b" ++ FOO ++ "\x7d") ∧
      (resolveRun w dir ("$$\x7b" ++ FOO ++ "\x7d")).log = []) ∧
    (∀ n v : String, n ≠ "" → '}' ∉ n.data →
      (∀ c cs, n.data ≠ 'f' :: 'i' :: 'l' :: 'e' :: ':' :: c :: cs) →
      w.env n = .ok v →
      resolve w dir ("$\x7b" ++ n ++ "\x7d") = .ok v) := by
  constructor
  · intro FOO hFOO
    have h1 : ("$$\x7b" ++ FOO ++ "\x7d").data = '$' :: '$' :: '{' :: (FOO.data ++ ['}']) := by
      rw [String.data_append, String.data_append]
      exact List.append_assoc ['$', '$', '{'] FOO.data ['}']
    have hall : ∀ c ∈ FOO.data ++ ['}'], c ≠ '$' := by
      intro c hc
      rcases List.mem_append.mp hc with h | h
      · intro hceq; exact hFOO (hceq ▸ h)
      · simp at h; subst h; decide
    have htok : tokenize (("$$\x7b" ++ FOO ++ "\x7d").data)
        = .dollar :: .lit '{' :: (FOO.data ++ ['}']).map .lit := by
      rw [h1, tokenize_dollar2, tokenize_lit _ (by decide), tokenize_no_dollar _ hall]
    constructor
    · have hfe : firstErr w dir (Tok.dollar :: .lit '{' :: (FOO.data ++ ['}']).map .lit)
          = none := by
        simp only [firstErr, tokErr]
        exact firstErr_lits w dir (FOO.data ++ ['}'])
      rw [resolve_eq, htok, hfe]
      simp only [List.map_cons, concatAll, tokOut, concat_lits]
      congr 1
    · rw [resolveRun_log, htok]
      simp [tokFx, flatMap_tokFx_lits]
  · intro n v hn hnb hnf henv
    have h1 : ("$\x7b" ++ n ++ "\x7d").data = '$' :: '{' :: (n.data ++ '}' :: []) := by
      rw [String.data_append, String.data_append]
      exact List.append_assoc ['$', '{'] n.data ['}']
    have hsb : splitBrace (n.data ++ '}' :: []) = some (n.data, []) :=
      splitBrace_append hnb (string_ne_data hn)
    have htok : tokenize (("$\x7b" ++ n ++ "\x7d").data) = [.envVar n] := by
      rw [h1, tokenize_brace_some hsb, mkTok_env n.data hnf, tokenize_nil]
    rw [resolve_eq, htok]
    simp [firstErr, tokErr, henv, concatAll, tokOut, String.append_empty]

/-- C6 witness: instantiating both clauses at concrete inputs. -/
theorem c6_witness :
    resolve ⟨fun x => .ok (x ++ "=${Y}"), fun _ => .error "NotFound"⟩ "." "$${FOO}"
      = .ok "${FOO}" ∧
    (resolveRun ⟨fun x => .ok (x ++ "=${Y}"), fun _ => .error "NotFound"⟩ "." "$${FOO}").log
      = [] ∧
    resolve ⟨fun x => .ok (x ++ "=${Y}"), fun _ => .error "NotFound"⟩ "." "${A}"
      = .ok "A=${Y}" := by
  refine ⟨?_, ?_, ?_⟩
  · exact ((c6_double_dollar_literal ⟨fun x => .ok (x ++ "=${Y}"), fun _ => .error "NotFound"⟩
      ".").1 "FOO" (by decide)).1
  · exact ((c6_double_dollar_literal ⟨fun x => .ok (x ++ "=${Y}"), fun _ => .error "NotFound"⟩
      ".").1 "FOO" (by decide)).2
  · exact (c6_double_dollar_literal ⟨fun x => .ok (x ++ "=${Y}"), fun _ => .error "NotFound"⟩
      ".").2 "A" "A=${Y}" (by decide) (by decide)
      (by intro c cs h; have := congrArg List.length h; simp at this) rfl

/-- C7: a file token joins its PATH onto the resolver's configuration-file
directory (the directory Config::try_from derives from the config file path),
replaces the token by the file's contents with trailing whitespace stripped on
success, and fails with UnresolvedFileVariable carrying the joined path and
the cause on any read error. -/
theorem c7_file_token (w : World) (dir p content cause : String)
    (hp : p ≠ "") (hpb : '}' ∉ p.data) :
    (w.fs (joinPath dir p) = .ok content →
      resolve w dir ("$\x7bfile:" ++ p ++ "\x7d") = .ok (trimEnd content)) ∧
    (w.fs (joinPath dir p) = .error cause →
      resolve w dir ("$\x7bfile:" ++ p ++ "\x7d")
        = .error (.UnresolvedFileVariable (joinPath dir p) cause)) := by
  have h1 : ("$\x7bfile:" ++ p ++ "\x7d").data
      = '$' :: '{' :: (('f' :: 'i' :: 'l' :: 'e' :: ':' :: p.data) ++ '}' :: []) := by
    rw [String.data_append, String.data_append]
    exact List.append_assoc ['$', '{', 'f', 'i', 'l', 'e', ':'] p.data ['}']
  have hpre : '}' ∉ ('f' :: 'i' :: 'l' :: 'e' :: ':' :: p.data) := by
    intro hmem
    simp only [List.mem_cons] at hmem
    rcases hmem with h | h | h | h | h | h
    · exact absurd h (by decide)
    · exact absurd h (by decide)
    · exact absurd h (by decide)
    · exact absurd h (by decide)
    · exact absurd h (by decide)
    · exact hpb h
  have hsb : splitBrace (('f' :: 'i' :: 'l' :: 'e' :: ':' :: p.data) ++ '}' :: [])
      = some ('f' :: 'i' :: 'l' :: 'e' :: ':' :: p.data, []) :=
    splitBrace_append hpre (by simp)
  cases hd : p.data with
  | nil => exact absurd hd (string_ne_data hp)
  | cons c cs =>
    have hmk : mkTok ('f' :: 'i' :: 'l' :: 'e' :: ':' :: p.data) = .fileVar p := by
      rw [hd]
      show Tok.fileVar (String.mk (c :: cs)) = .fileVar p
      rw [← hd]
    have htok : tokenize (("$\x7bfile:" ++ p ++ "\x7d").data) = [.fileVar p] := by
      rw [h1, tokenize_brace_some hsb, hmk, tokenize_nil]
    constructor
    · intro hok
      rw [resolve_eq, htok]
      simp [firstErr, tokErr, hok, concatAll, tokOut, String.append_empty]
    · intro herr
      rw [resolve_eq, htok]
      simp [firstErr, tokErr, herr]

/-- C7 witness: a relative path joined under the config directory, on a world
whose file store holds that joined path; both the success and the failure
clause instantiated. -/
theorem c7_witness :
    resolve ⟨fun _ => .error "NotPresent", fun q => if q = "cfg/sub/key.txt" then .ok "secret \n" else .error "NotFound"⟩
      "cfg" ("$\x7bfile:" ++ "sub/key.txt" ++ "\x7d") = .ok "secret" ∧
    resolve ⟨fun _ => .error "NotPresent", fun q => if q = "cfg/sub/key.txt" then .ok "secret \n" else .error "NotFound"⟩
      "cfg" ("$\x7bfile:" ++ "missing" ++ "\x7d")
      = .error (.UnresolvedFileVariable "cfg/missing" "NotFound") := by
  constructor
  · have h := (c7_file_token
      ⟨fun _ => .error "NotPresent", fun q => if q = "cfg/sub/key.txt" then .ok "secret \n" else .error "NotFound"⟩
      "cfg" "sub/key.txt" "secret \n" "NotFound" (by decide) (by decide)).1 (by decide)
    rw [h]
    decide
  · have h := (c7_file_token
      ⟨fun _ => .error "NotPresent", fun q => if q = "cfg/sub/key.txt" then .ok "secret \n" else .error "NotFound"⟩
      "cfg" "missing" "secret \n" "NotFound" (by decide) (by decide)).2 (by decide)
    rw [h]
    decide

/-- C9: in the Debug renderings of GithubConfig and SshConfig every non-empty
secret field (personal access token, password, private key, passphrase) is
replaced by the fixed marker, so the rendering is independent of the secret
values: two configs that differ only in the values of their non-empty secret
fields render identically, and no prefix or substring of a secret value can
reach the output. -/
theorem c9_debug_redaction :
    (∀ v : String, v ≠ "" → mask_credential v = fmtStr "[REDACTED]") ∧
    (∀ g g' : GithubConfig, g.runners = g'.runners →
      g.personal_access_token ≠ "" → g'.personal_access_token ≠ "" →
      debugGithubConfig g = debugGithubConfig g') ∧
    (∀ s s' : SshConfig, s.host = s'.host → s.port = s'.port →
      s.fingerprint = s'.fingerprint → s.username = s'.username →
      s.password ≠ "" → s'.password ≠ "" →
      s.private_key ≠ "" → s'.private_key ≠ "" →
      s.private_key_passphrase ≠ "" → s'.private_key_passphrase ≠ "" →
      debugSshConfig s = debugSshConfig s') := by
  refine ⟨?_, ?_, ?_⟩
  · intro v hv
    simp [mask_credential, hv]
  · intro g g' hr h1 h2
    simp [debugGithubConfig, mask_credential, h1, h2, hr]
  · intro s s' hh hp hf hu h1 h2 h3 h4 h5 h6
    simp [debugSshConfig, mask_credential, h1, h2, h3, h4, h5, h6, hh, hp, hf, hu]

/-- C9 witness: concrete configs differing only in their secrets render
identically. -/
theorem c9_witness :
    mask_credential "ghp_secret" = fmtStr "[REDACTED]" ∧
    debugGithubConfig ⟨"ghp_aaa", ⟨"runner", "repo", "https://x"⟩⟩
      = debugGithubConfig ⟨"ghp_bbb", ⟨"runner", "repo", "https://x"⟩⟩ ∧
    debugSshConfig ⟨"h", 22, "fp", "u", "p1", "k1", "s1"⟩
      = debugSshConfig ⟨"h", 22, "fp", "u", "p2", "k2", "s2"⟩ :=
  ⟨c9_debug_redaction.1 "ghp_secret" (by decide),
   c9_debug_redaction.2.1 ⟨"ghp_aaa", ⟨"runner", "repo", "https://x"⟩⟩
     ⟨"ghp_bbb", ⟨"runner", "repo", "https://x"⟩⟩ rfl (by decide) (by decide),
   c9_debug_redaction.2.2 ⟨"h", 22, "fp", "u", "p1", "k1", "s1"⟩
     ⟨"h", 22, "fp", "u", "p2", "k2", "s2"⟩ rfl rfl rfl rfl
     (by decide) (by decide) (by decide) (by decide) (by decide) (by decide)⟩

theorem strStartsWith_ne_empty {s pre : String} (h : strStartsWith s pre = true)
    (hpre : pre ≠ "") : s ≠ "" := by
  intro hs
  subst hs
  unfold strStartsWith at h
  cases hd : pre.data with
  | nil => exact hpre (String.ext hd)
  | cons c cs =>
    rw [hd] at h
    simp [List.isPrefixOf] at h

theorem append_mid (t a mid b rest : String) (h : a ++ (mid ++ b) = rest) :
    t ++ rest = ((t ++ a) ++ mid) ++ b := by
  rw [String.append_assoc, String.append_assoc, h]

theorem resolve_github_config_eq (c : GithubConfig) (w : World) (dir : String)
    (pat np sc ru : String)
    (hpat : resolve w dir c.personal_access_token = .ok pat)
    (hnp : resolve w dir c.runners.namePrefix = .ok np)
    (hsc : resolve w dir c.runners.scope = .ok sc)
    (hru : resolve w dir c.runners.repo_url = .ok ru) :
    resolve_github_config c w dir =
      (if pat = "" then
        .error (.ValidationFailure "An empty or missing value in 'github.personal_access_token'. A GitHub personal access token must start with 'ghp_'.")
      else if !strStartsWith pat "ghp_" then
        .error (.ValidationFailure "An invalid value in 'github.personal_access_token'. A GitHub personal access token must start with 'ghp_'.")
      else if np = "" then
        .error (.ValidationFailure "An empty value in 'github.runners.name_prefix'.")
      else if sc ≠ "repo" then
        .error (.ValidationFailure ("An unsupported value '" ++ sc ++ "' in 'github.runners.scope'. 'repo' is the only supported value at the moment."))
      else if ru = "" then
        .error (.ValidationFailure "An empty or missing URL in 'github.runners.repo_url'.")
      else if !(strStartsWith ru "http://" || strStartsWith ru "https://") then
        .error (.ValidationFailure ("An invalid URL '" ++ ru ++ "' in github.runners.repo_url."))
      else
        .ok ⟨pat, ⟨np, sc, ru⟩⟩) := by
  unfold resolve_github_config
  rw [hpat, hnp, hsc, hru]

/-- C5: GitHub-config resolution succeeds exactly when the resolved token
starts with the token prefix (hence is non-empty), the runner name prefix is
non-empty, the scope is exactly repo, and the repository URL has an http or
https scheme (hence is non-empty); each violation produces a
ValidationFailure whose message names the offending field path; and the
GitHub block is resolved before the machine list, so a GitHub error is
reported even when the machine list is also bad. -/
theorem c5_github_validation (c : GithubConfig) (w : World) (dir : String)
    (pat np sc ru : String)
    (hpat : resolve w dir c.personal_access_token = .ok pat)
    (hnp : resolve w dir c.runners.namePrefix = .ok np)
    (hsc : resolve w dir c.runners.scope = .ok sc)
    (hru : resolve w dir c.runners.repo_url = .ok ru) :
    (resolve_github_config c w dir = .ok ⟨pat, ⟨np, sc, ru⟩⟩ ↔
      (strStartsWith pat "ghp_" = true ∧ np ≠ "" ∧ sc = "repo" ∧
       (strStartsWith ru "http://" = true ∨ strStartsWith ru "https://" = true))) ∧
    (pat = "" →
      ∃ m, resolve_github_config c w dir = .error (.ValidationFailure m) ∧
        ∃ a b, m = a ++ "github.personal_access_token" ++ b) ∧
    (pat ≠ "" → strStartsWith pat "ghp_" = false →
      ∃ m, resolve_github_config c w dir = .error (.ValidationFailure m) ∧
        ∃ a b, m = a ++ "github.personal_access_token" ++ b) ∧
    (strStartsWith pat "ghp_" = true → np = "" →
      ∃ m, resolve_github_config c w dir = .error (.ValidationFailure m) ∧
        ∃ a b, m = a ++ "github.runners.name_prefix" ++ b) ∧
    (strStartsWith pat "ghp_" = true → np ≠ "" → sc ≠ "repo" →
      ∃ m, resolve_github_config c w dir = .error (.ValidationFailure m) ∧
        ∃ a b, m = a ++ "github.runners.scope" ++ b) ∧
    (strStartsWith pat "ghp_" = true → np ≠ "" → sc = "repo" → ru = "" →
      ∃ m, resolve_github_config c w dir = .error (.ValidationFailure m) ∧
        ∃ a b, m = a ++ "github.runners.repo_url" ++ b) ∧
    (strStartsWith pat "ghp_" = true → np ≠ "" → sc = "repo" → ru ≠ "" →
      strStartsWith ru "http://" = false → strStartsWith ru "https://" = false →
      ∃ m, resolve_github_config c w dir = .error (.ValidationFailure m) ∧
        ∃ a b, m = a ++ "github.runners.repo_url" ++ b) ∧
    (∀ (parsed : Config) (md : MachineDefaultsConfig) (e : ConfigError),
      parsed.github = c →
      resolve_machine_defaults_config parsed.machine_defaults w dir = .ok md →
      resolve_github_config c w dir = .error e →
      resolve_config parsed w dir = .error e) := by
  have heq := resolve_github_config_eq c w dir pat np sc ru hpat hnp hsc hru
  refine ⟨?_, ?_, ?_, ?_, ?_, ?_, ?_, ?_⟩
  · rw [heq]
    constructor
    · intro h
      split_ifs at h with h1 h2 h3 h4 h5 h6
      all_goals simp_all
      rcases Bool.eq_false_or_eq_true (strStartsWith ru "http://") with h7 | h7
      · exact Or.inl h7
      · exact Or.inr (h6 h7)
    · rintro ⟨h1, h2, h3, h4⟩
      have hpat_ne : pat ≠ "" := strStartsWith_ne_empty h1 (by decide)
      have hru_ne : ru ≠ "" := by
        rcases h4 with h | h
        · exact strStartsWith_ne_empty h (by decide)
        · exact strStartsWith_ne_empty h (by decide)
      rw [if_neg hpat_ne, if_neg (by simp [h1]), if_neg h2, if_neg (by simp [h3]),
        if_neg hru_ne, if_neg (by rcases h4 with h | h <;> simp [h])]
  · intro h1
    rw [heq, if_pos h1]
    exact ⟨_, rfl, "An empty or missing value in '",
      "'. A GitHub personal access token must start with 'ghp_'.", rfl⟩
  · intro h1 h2
    rw [heq, if_neg h1, if_pos (by simp [h2])]
    exact ⟨_, rfl, "An invalid value in '",
      "'. A GitHub personal access token must start with 'ghp_'.", rfl⟩
  · intro h1 h2
    rw [heq, if_neg (strStartsWith_ne_empty h1 (by decide)), if_neg (by simp [h1]), if_pos h2]
    exact ⟨_, rfl, "An empty value in '", "'.", rfl⟩
  · intro h1 h2 h3
    rw [heq, if_neg (strStartsWith_ne_empty h1 (by decide)), if_neg (by simp [h1]),
      if_neg h2, if_pos (by simpa using h3)]
    exact ⟨_, rfl, "An unsupported value '" ++ sc ++ "' in '",
      "'. 'repo' is the only supported value at the moment.",
      append_mid ("An unsupported value '" ++ sc) "' in '" "github.runners.scope"
        "'. 'repo' is the only supported value at the moment."
        "' in 'github.runners.scope'. 'repo' is the only supported value at the moment." rfl⟩
  · intro h1 h2 h3 h4
    rw [heq, if_neg (strStartsWith_ne_empty h1 (by decide)), if_neg (by simp [h1]),
      if_neg h2, if_neg (by simp [h3]), if_pos h4]
    exact ⟨_, rfl, "An empty or missing URL in '", "'.", rfl⟩
  · intro h1 h2 h3 h4 h5 h6
    rw [heq, if_neg (strStartsWith_ne_empty h1 (by decide)), if_neg (by simp [h1]),
      if_neg h2, if_neg (by simp [h3]), if_neg h4, if_pos (by simp [h5, h6])]
    exact ⟨_, rfl, "An invalid URL '" ++ ru ++ "' in ", ".",
      append_mid ("An invalid URL '" ++ ru) "' in " "github.runners.repo_url" "."
        "' in github.runners.repo_url." rfl⟩
  · intro parsed md e hgh hmd herr
    unfold resolve_config
    rw [hmd, hgh, herr]

/-- C5 witness: a well-formed GitHub block resolves to itself, on a world
without substitution tokens in play. -/
theorem c5_witness :
    resolve_github_config ⟨"ghp_x", ⟨"runner", "repo", "https://h"⟩⟩
      ⟨fun _ => .error "NotPresent", fun _ => .error "NotFound"⟩ "."
      = .ok ⟨"ghp_x", ⟨"runner", "repo", "https://h"⟩⟩ :=
  (c5_github_validation ⟨"ghp_x", ⟨"runner", "repo", "https://h"⟩⟩
    ⟨fun _ => .error "NotPresent", fun _ => .error "NotFound"⟩ "."
    "ghp_x" "runner" "repo" "https://h"
    (by decide) (by decide) (by decide) (by decide)).1.mpr
    ⟨by decide, by decide, rfl, Or.inr (by decide)⟩

theorem resolve_empty (w : World) (dir : String) : resolve w dir "" = .ok "" := rfl

theorem resolve_ssh_config_ok {machine_id : String} {defaults c : SshConfig}
    {w : World} {dir : String} {out : SshConfig}
    (h : resolve_ssh_config machine_id defaults c w dir = .ok out) :
    resolve w dir (select_auth defaults c).1 = .ok out.password ∧
    resolve w dir (select_auth defaults c).2.1 = .ok out.private_key ∧
    resolve w dir (select_auth defaults c).2.2 = .ok out.private_key_passphrase ∧
    ¬(out.password = "" ∧ out.private_key = "") := by
  simp only [resolve_ssh_config] at h
  split at h
  · exact absurd h (by simp)
  split at h
  · exact absurd h (by simp)
  split at h
  · exact absurd h (by simp)
  split at h
  · exact absurd h (by simp)
  rename_i pw hP
  split at h
  · exact absurd h (by simp)
  rename_i pk hK
  split at h
  · exact absurd h (by simp)
  rename_i pkp hQ
  split at h
  · exact absurd h (by simp)
  rename_i hne
  have hout := Except.ok.inj h
  subst hout
  exact ⟨hP, hK, hQ, hne⟩

/-- C1: SSH auth is selected once per machine by the strict preference order
per-machine private key, per-machine password, default private key (with its
passphrase), default password; when the per-machine private key wins, the
merged password field resolves from the empty string and is therefore empty
even when a per-machine password was also given; and a successful merge never
leaves both password and private key empty: when the selected triple resolves
to empty password and private key, the merge fails with a ValidationFailure
whose message names the machine id. -/
theorem c1_ssh_auth (machine_id : String) (defaults c : SshConfig) (w : World) (dir : String) :
    ((c.private_key ≠ "" →
        select_auth defaults c = ("", c.private_key, c.private_key_passphrase)) ∧
     (c.private_key = "" → c.password ≠ "" →
        select_auth defaults c = (c.password, "", "")) ∧
     (c.private_key = "" → c.password = "" → defaults.private_key ≠ "" →
        select_auth defaults c = ("", defaults.private_key, defaults.private_key_passphrase)) ∧
     (c.private_key = "" → c.password = "" → defaults.private_key = "" →
        select_auth defaults c = (defaults.password, "", ""))) ∧
    (∀ out, resolve_ssh_config machine_id defaults c w dir = .ok out →
      resolve w dir (select_auth defaults c).1 = .ok out.password ∧
      resolve w dir (select_auth defaults c).2.1 = .ok out.private_key ∧
      resolve w dir (select_auth defaults c).2.2 = .ok out.private_key_passphrase ∧
      (c.private_key ≠ "" → out.password = "") ∧
      ¬(out.password = "" ∧ out.private_key = "")) ∧
    (∀ hostv fpv unv pkpv,
      resolve_or_else w dir c.host
        (if defaults.host = "" then
          .error (.ValidationFailure ("'host' must be specified for machine '" ++ machine_id ++ "'."))
        else .ok defaults.host) = .ok hostv →
      resolve w dir c.fingerprint = .ok fpv →
      resolve_or_else w dir c.username
        (if defaults.username = "" then
          .error (.ValidationFailure ("'username' must be specified for machine '" ++ machine_id ++ "'."))
        else .ok defaults.username) = .ok unv →
      resolve w dir (select_auth defaults c).1 = .ok "" →
      resolve w dir (select_auth defaults c).2.1 = .ok "" →
      resolve w dir (select_auth defaults c).2.2 = .ok pkpv →
      resolve_ssh_config machine_id defaults c w dir
        = .error (.ValidationFailure
            ("'password' or 'private_key' must be specified for machine '" ++ machine_id ++ "'.")) ∧
      ∃ a b, ("'password' or 'private_key' must be specified for machine '" ++ machine_id ++ "'.")
        = a ++ machine_id ++ b) := by
  refine ⟨⟨?_, ?_, ?_, ?_⟩, ?_, ?_⟩
  · intro h1; simp [select_auth, h1]
  · intro h1 h2; simp [select_auth, h1, h2]
  · intro h1 h2 h3; simp [select_auth, h1, h2, h3]
  · intro h1 h2 h3; simp [select_auth, h1, h2, h3]
  · intro out hok
    obtain ⟨hP, hK, hQ, hne⟩ := resolve_ssh_config_ok hok
    refine ⟨hP, hK, hQ, ?_, hne⟩
    intro hpk
    have hsel : select_auth defaults c = ("", c.private_key, c.private_key_passphrase) := by
      simp [select_auth, hpk]
    rw [hsel] at hP
    exact (Except.ok.inj ((resolve_empty w dir).symm.trans hP)).symm
  · intro hostv fpv unv pkpv hH hF hU hP hK hQ
    constructor
    · simp only [resolve_ssh_config]
      simp only [hH, hF, hU, hP, hK, hQ]
      simp
    · exact ⟨"'password' or 'private_key' must be specified for machine '", "'.", rfl⟩

/-- C1 witness: a machine with both a password and a private key: the private
key wins and the merged password is empty. -/
theorem c1_witness :
    ∃ out, resolve_ssh_config "m1" {}
      { host := "h", username := "u", password := "pw", private_key := "pk",
        private_key_passphrase := "ps" }
      ⟨fun _ => .error "NP", fun _ => .error "NF"⟩ "." = .ok out ∧
      out.password = "" ∧ out.private_key = "pk" := by
  refine ⟨_, rfl, ?_, ?_⟩
  · exact ((c1_ssh_auth "m1" {}
      { host := "h", username := "u", password := "pw", private_key := "pk",
        private_key_passphrase := "ps" }
      ⟨fun _ => .error "NP", fun _ => .error "NF"⟩ ".").2.1 _ rfl).2.2.2.1 (by decide)
  · rfl

theorem charVal_digitChar : ∀ d, d < 10 → charVal (digitChar d) = d := by decide

theorem digitsToNat_append (ds : List Char) (c : Char) :
    digitsToNat (ds ++ [c]) = 10 * digitsToNat ds + charVal c := by
  simp [digitsToNat, List.foldl_append]

theorem natDigits_val : ∀ (f n : Nat), n < f → digitsToNat (natDigits f n) = n := by
  intro f
  induction f with
  | zero => intro n hn; omega
  | succ f ih =>
    intro n hn
    by_cases h10 : n < 10
    · simp [natDigits, h10, digitsToNat, charVal_digitChar n h10]
    · have hn1 : 1 ≤ n := by omega
      have hdiv : n / 10 < n := Nat.div_lt_self (by omega) (by omega)
      simp only [natDigits, if_neg h10]
      rw [digitsToNat_append, ih (n / 10) (by omega),
        charVal_digitChar (n % 10) (Nat.mod_lt n (by omega))]
      omega

theorem natRepr_inj : Function.Injective natRepr := by
  intro m n h
  have hd : natDigits (m + 1) m = natDigits (n + 1) n := congrArg String.data h
  have h1 := natDigits_val (m + 1) m (by omega)
  have h2 := natDigits_val (n + 1) n (by omega)
  rw [hd] at h1
  omega

theorem machineIdNum_inj : Function.Injective machineIdNum := by
  intro m n h
  unfold machineIdNum at h
  have hd := congrArg String.data h
  rw [String.data_append, String.data_append] at hd
  have := List.append_cancel_left hd
  exact natRepr_inj (String.ext this)

theorem exists_unclaimed (used : List String) (next : Nat) :
    ∃ k, k ≤ used.length ∧ machineIdNum (next + k) ∉ used := by
  by_contra hc
  push_neg at hc
  have hinj : Function.Injective (fun k : Nat => machineIdNum (next + k)) := by
    intro a b hab
    have := machineIdNum_inj hab
    omega
  have hl1 : ((List.range (used.length + 1)).map
      (fun k => machineIdNum (next + k))).Nodup :=
    (List.nodup_range _).map hinj
  have hl2 : ((List.range (used.length + 1)).map
      (fun k => machineIdNum (next + k))) ⊆ used := by
    intro x hx
    rcases List.mem_map.mp hx with ⟨k, hk, rfl⟩
    exact hc k (by simpa using Nat.lt_succ_iff.mp (List.mem_range.mp hk))
  have := (hl1.subperm hl2).length_le
  simp at this

theorem genFresh_spec : ∀ (fuel next : Nat) (used : List String),
    (∃ k, k < fuel ∧ machineIdNum (next + k) ∉ used) →
    ∃ m, next ≤ m ∧ machineIdNum m ∉ used ∧
      genFresh fuel next used = (machineIdNum m, m, used ++ [machineIdNum m]) ∧
      (∀ j, next ≤ j → j < m → machineIdNum j ∈ used) := by
  intro fuel
  induction fuel with
  | zero => intro next used ⟨k, hk, _⟩; omega
  | succ f ih =>
    intro next used ⟨k, hk, hfree⟩
    by_cases hmem : machineIdNum next ∈ used
    · have hk0 : k ≠ 0 := by
        intro h0; subst h0; simp at hfree; exact hfree hmem
      obtain ⟨m, hm1, hm2, hm3, hm4⟩ := ih (next + 1) used
        ⟨k - 1, by omega, by
          have : next + 1 + (k - 1) = next + k := by omega
          rw [this]; exact hfree⟩
      refine ⟨m, by omega, hm2, ?_, ?_⟩
      · simp only [genFresh, if_pos hmem]
        exact hm3
      · intro j hj1 hj2
        rcases Nat.eq_or_lt_of_le hj1 with h | h
        · subst h; exact hmem
        · exact hm4 j h hj2
    · exact ⟨next, Nat.le_refl _, hmem, by simp [genFresh, hmem], by omega⟩

theorem lexLe_total : ∀ as bs : List Char, lexLe as bs = true ∨ lexLe bs as = true := by
  intro as
  induction as with
  | nil => intro bs; left; rfl
  | cons a as ih =>
    intro bs
    cases bs with
    | nil => right; rfl
    | cons b bs =>
      rcases lt_trichotomy a b with h | h | h
      · left; simp [lexLe, h]
      · subst h
        rcases ih bs with h | h
        · left; simp [lexLe, lt_irrefl, h]
        · right; simp [lexLe, lt_irrefl, h]
      · right; simp [lexLe, h]

theorem lexLe_trans : ∀ as bs cs : List Char,
    lexLe as bs = true → lexLe bs cs = true → lexLe as cs = true := by
  intro as
  induction as with
  | nil => intro bs cs _ _; rfl
  | cons a as ih =>
    intro bs cs hab hbc
    cases bs with
    | nil => simp [lexLe] at hab
    | cons b bs =>
      cases cs with
      | nil => simp [lexLe] at hbc
      | cons c cs =>
        simp only [lexLe] at hab hbc ⊢
        by_cases h1 : a < b
        · by_cases h2 : b < c
          · simp [lt_trans h1 h2]
          · by_cases h3 : c < b
            · rw [if_neg h2, if_pos h3] at hbc
              simp at hbc
            · have hbc' : b = c := le_antisymm (not_lt.mp h3) (not_lt.mp h2)
              subst hbc'
              simp [h1]
        · by_cases h1' : b < a
          · rw [if_neg h1, if_pos h1'] at hab
            simp at hab
          · have hab' : a = b := le_antisymm (not_lt.mp h1') (not_lt.mp h1)
            subst hab'
            rw [if_neg h1, if_neg h1'] at hab
            by_cases h2 : a < c
            · simp [h2]
            · by_cases h3 : c < a
              · rw [if_neg h2, if_pos h3] at hbc
                simp at hbc
              · rw [if_neg h2, if_neg h3] at hbc ⊢
                exact ih bs cs hab hbc

theorem explicitIds_nil : explicitIds [] = [] := rfl

theorem explicitIds_cons (c : MachineConfig) (rest : List MachineConfig) :
    explicitIds (c :: rest)
      = if c.id = "" then explicitIds rest else c.id :: explicitIds rest := by
  by_cases h : c.id = "" <;> simp [explicitIds, List.filter_cons, h]

theorem mem_explicitIds {cfgs : List MachineConfig} {d : MachineConfig}
    (hd : d ∈ cfgs) (hne : d.id ≠ "") : d.id ∈ explicitIds cfgs := by
  simp only [explicitIds, List.mem_filter, List.mem_map]
  exact ⟨⟨d, hd, rfl⟩, by simpa using hne⟩

theorem collectIds_ok_eq : ∀ (cfgs : List MachineConfig) (acc used : List String),
    collectIds cfgs acc = .ok used → used = acc ++ explicitIds cfgs := by
  intro cfgs
  induction cfgs with
  | nil =>
    intro acc used h
    simp only [collectIds] at h
    simp [← Except.ok.inj h, explicitIds_nil]
  | cons c rest ih =>
    intro acc used h
    by_cases hc : c.id = ""
    · simp only [collectIds, if_pos hc] at h
      rw [ih _ _ h, explicitIds_cons, if_pos hc]
    · by_cases hm : c.id ∈ acc
      · simp [collectIds, hc, hm] at h
      · simp only [collectIds, if_neg hc, if_neg hm] at h
        rw [ih _ _ h, explicitIds_cons, if_neg hc]
        simp

theorem collectIds_ok_nodup : ∀ (cfgs : List MachineConfig) (acc used : List String),
    acc.Nodup → collectIds cfgs acc = .ok used → used.Nodup := by
  intro cfgs
  induction cfgs with
  | nil =>
    intro acc used hacc h
    simp only [collectIds] at h
    rw [← Except.ok.inj h]
    exact hacc
  | cons c rest ih =>
    intro acc used hacc h
    by_cases hc : c.id = ""
    · simp only [collectIds, if_pos hc] at h
      exact ih _ _ hacc h
    · by_cases hm : c.id ∈ acc
      · simp [collectIds, hc, hm] at h
      · simp only [collectIds, if_neg hc, if_neg hm] at h
        refine ih _ _ ?_ h
        rw [List.nodup_append]
        refine ⟨hacc, List.nodup_singleton _, ?_⟩
        intro a ha hb
        simp at hb
        subst hb
        exact hm ha

theorem collectIds_error_shape : ∀ (cfgs : List MachineConfig) (acc : List String)
    (e : ConfigError), collectIds cfgs acc = .error e →
    ∃ id, id ≠ "" ∧ e = .ValidationFailure (dupMsg id) := by
  intro cfgs
  induction cfgs with
  | nil => intro acc e h; simp [collectIds] at h
  | cons c rest ih =>
    intro acc e h
    by_cases hc : c.id = ""
    · simp only [collectIds, if_pos hc] at h
      exact ih _ _ h
    · by_cases hm : c.id ∈ acc
      · simp only [collectIds, if_neg hc, if_pos hm] at h
        exact ⟨c.id, hc, (Except.error.inj h).symm⟩
      · simp only [collectIds, if_neg hc, if_neg hm] at h
        exact ih _ _ h

theorem collectIds_error_of_mem : ∀ (cfgs : List MachineConfig) (acc : List String),
    (∃ d ∈ cfgs, d.id ≠ "" ∧ d.id ∈ acc) →
    ∃ id, id ≠ "" ∧ (id ∈ cfgs.map MachineConfig.id ∨ id ∈ acc) ∧
      collectIds cfgs acc = .error (.ValidationFailure (dupMsg id)) := by
  intro cfgs
  induction cfgs with
  | nil =>
    rintro acc ⟨d, hd, _⟩
    simp at hd
  | cons c rest ih =>
    rintro acc ⟨d, hd, hdne, hdacc⟩
    by_cases hc : c.id = ""
    · have hdrest : d ∈ rest := by
        rcases List.mem_cons.mp hd with h | h
        · subst h; exact absurd hc hdne
        · exact h
      obtain ⟨id, h1, h2, h3⟩ := ih acc ⟨d, hdrest, hdne, hdacc⟩
      refine ⟨id, h1, ?_, by simp only [collectIds, if_pos hc]; exact h3⟩
      rcases h2 with h | h
      · left; simp [h]
      · right; exact h
    · by_cases hm : c.id ∈ acc
      · exact ⟨c.id, hc, Or.inl (by simp),
          by simp only [collectIds, if_neg hc, if_pos hm]⟩
      · have hdrest : d ∈ rest := by
          rcases List.mem_cons.mp hd with h | h
          · subst h; exact absurd hdacc hm
          · exact h
        obtain ⟨id, h1, h2, h3⟩ := ih (acc ++ [c.id]) ⟨d, hdrest, hdne, by simp [hdacc]⟩
        refine ⟨id, h1, ?_, by simp only [collectIds, if_neg hc, if_neg hm]; exact h3⟩
        rcases h2 with h | h
        · left; simp [h]
        · rcases List.mem_append.mp h with h | h
          · right; exact h
          · left; simp at h; simp [h]

theorem collectIds_error_of_dup : ∀ (l1 : List MachineConfig) (c1 : MachineConfig)
    (l2 : List MachineConfig) (c2 : MachineConfig) (l3 : List MachineConfig)
    (acc : List String), c1.id = c2.id → c1.id ≠ "" →
    ∃ id, id ≠ "" ∧
      (id ∈ (l1 ++ (c1 :: (l2 ++ c2 :: l3))).map MachineConfig.id ∨ id ∈ acc) ∧
      collectIds (l1 ++ (c1 :: (l2 ++ c2 :: l3))) acc
        = .error (.ValidationFailure (dupMsg id)) := by
  intro l1
  induction l1 with
  | nil =>
    intro c1 l2 c2 l3 acc heq hne
    simp only [List.nil_append]
    by_cases hm : c1.id ∈ acc
    · exact ⟨c1.id, hne, Or.inl (by simp),
        by simp only [collectIds, if_neg hne, if_pos hm]⟩
    · obtain ⟨id, h1, h2, h3⟩ := collectIds_error_of_mem (l2 ++ c2 :: l3) (acc ++ [c1.id])
        ⟨c2, by simp, by rw [← heq]; exact hne, by simp [← heq]⟩
      refine ⟨id, h1, ?_, by simp only [collectIds, if_neg hne, if_neg hm]; exact h3⟩
      rcases h2 with h | h
      · left
        rw [List.map_cons]
        exact List.mem_cons_of_mem _ h
      · rcases List.mem_append.mp h with h | h
        · right; exact h
        · left; simp at h; simp [h]
  | cons c l1 ih =>
    intro c1 l2 c2 l3 acc heq hne
    simp only [List.cons_append]
    by_cases hc : c.id = ""
    · obtain ⟨id, h1, h2, h3⟩ := ih c1 l2 c2 l3 acc heq hne
      refine ⟨id, h1, ?_, by simp only [collectIds, if_pos hc]; exact h3⟩
      rcases h2 with h | h
      · left
        rw [List.map_cons]
        exact List.mem_cons_of_mem _ h
      · right; exact h
    · by_cases hm : c.id ∈ acc
      · exact ⟨c.id, hc, Or.inl (by simp),
          by simp only [collectIds, if_neg hc, if_pos hm]⟩
      · obtain ⟨id, h1, h2, h3⟩ := ih c1 l2 c2 l3 (acc ++ [c.id]) heq hne
        refine ⟨id, h1, ?_, by simp only [collectIds, if_neg hc, if_neg hm]; exact h3⟩
        rcases h2 with h | h
        · left
          rw [List.map_cons]
          exact List.mem_cons_of_mem _ h
        · rcases List.mem_append.mp h with h | h
          · right; exact h
          · left; simp at h; simp [h]

theorem firstErr_shape (w : World) (dir : String) : ∀ (ts : List Tok) (e : ConfigError),
    firstErr w dir ts = some e →
    (∃ n c, e = .UnresolvedEnvironmentVariable n c) ∨
    (∃ p c, e = .UnresolvedFileVariable p c) := by
  intro ts
  induction ts with
  | nil => intro e h; simp [firstErr] at h
  | cons t ts ih =>
    intro e h
    simp only [firstErr] at h
    cases ht : tokErr w dir t with
    | none => rw [ht] at h; exact ih e h
    | some e' =>
      rw [ht] at h
      replace h : e' = e := Option.some.inj h
      subst h
      cases t with
      | lit c => simp [tokErr] at ht
      | dollar => simp [tokErr] at ht
      | envVar n =>
        cases hv : w.env n with
        | ok v => simp [tokErr, hv] at ht
        | error cause =>
          simp only [tokErr, hv] at ht
          exact Or.inl ⟨n, cause, (Option.some.inj ht).symm⟩
      | fileVar p =>
        cases hv : w.fs (joinPath dir p) with
        | ok v => simp [tokErr, hv] at ht
        | error cause =>
          simp only [tokErr, hv] at ht
          exact Or.inr ⟨joinPath dir p, cause, (Option.some.inj ht).symm⟩

theorem resolve_error_shape {w : World} {dir s : String} {e : ConfigError}
    (h : resolve w dir s = .error e) :
    (∃ n c, e = .UnresolvedEnvironmentVariable n c) ∨
    (∃ p c, e = .UnresolvedFileVariable p c) := by
  rw [resolve_eq] at h
  cases hf : firstErr w dir (tokenize s.data) with
  | none => rw [hf] at h; simp at h
  | some e' =>
    rw [hf] at h
    replace h : e' = e := Except.error.inj h
    subst h
    exact firstErr_shape w dir _ _ hf

theorem resolve_or_else_error {w : World} {dir input : String}
    {elseFn : Except ConfigError String} {e : ConfigError}
    (h : resolve_or_else w dir input elseFn = .error e) :
    elseFn = .error e ∨
    (∃ n c, e = .UnresolvedEnvironmentVariable n c) ∨
    (∃ p c, e = .UnresolvedFileVariable p c) := by
  unfold resolve_or_else at h
  by_cases hi : input = ""
  · rw [if_pos hi] at h
    cases hf : elseFn with
    | error e' =>
      rw [hf] at h
      replace h : Except.error e' = Except.error e := h
      exact Or.inl h
    | ok v =>
      rw [hf] at h
      exact Or.inr (resolve_error_shape h)
  · rw [if_neg hi] at h
    exact Or.inr (resolve_error_shape h)

theorem shape_ne_vf {e : ConfigError}
    (h : (∃ n c, e = .UnresolvedEnvironmentVariable n c) ∨
         (∃ p c, e = .UnresolvedFileVariable p c)) (m : String) :
    e ≠ .ValidationFailure m := by
  rcases h with ⟨n, c, rfl⟩ | ⟨p, c, rfl⟩ <;> simp

theorem vf_ne_of_head {m1 m2 : String} (h : m1.data.head? ≠ m2.data.head?) :
    ConfigError.ValidationFailure m1 ≠ .ValidationFailure m2 := by
  intro he
  injection he with h'
  exact h (by rw [h'])

theorem vf_lit_ne {lit mid post m2 : String} (c : Char) (rest : List Char)
    (hl : lit.data = c :: rest) (h2 : m2.data.head? ≠ some c) :
    ConfigError.ValidationFailure (lit ++ mid ++ post) ≠ .ValidationFailure m2 := by
  apply vf_ne_of_head
  have hh : (lit ++ mid ++ post).data.head? = some c := by
    rw [String.data_append, String.data_append, hl]
    rfl
  rw [hh]
  exact Ne.symm h2

theorem ssh_error_ne {machine_id : String} {defaults c : SshConfig} {w : World}
    {dir : String} {e : ConfigError}
    (h : resolve_ssh_config machine_id defaults c w dir = .error e) :
    e ≠ .ValidationFailure emptyMachinesMsg := by
  simp only [resolve_ssh_config] at h
  split at h
  · rename_i e' hH
    replace h : e' = e := Except.error.inj h
    subst h
    rcases resolve_or_else_error hH with hfe | hshape
    · split at hfe
      · replace hfe := Except.error.inj hfe
        subst hfe
        exact vf_lit_ne '\'' _ rfl (by decide)
      · exact absurd hfe (by simp)
    · exact shape_ne_vf hshape _
  split at h
  · rename_i e' hF
    replace h : e' = e := Except.error.inj h
    subst h
    exact shape_ne_vf (resolve_error_shape hF) _
  split at h
  · rename_i e' hU
    replace h : e' = e := Except.error.inj h
    subst h
    rcases resolve_or_else_error hU with hfe | hshape
    · split at hfe
      · replace hfe := Except.error.inj hfe
        subst hfe
        exact vf_lit_ne '\'' _ rfl (by decide)
      · exact absurd hfe (by simp)
    · exact shape_ne_vf hshape _
  split at h
  · rename_i e' hP
    replace h : e' = e := Except.error.inj h
    subst h
    exact shape_ne_vf (resolve_error_shape hP) _
  split at h
  · rename_i e' hK
    replace h : e' = e := Except.error.inj h
    subst h
    exact shape_ne_vf (resolve_error_shape hK) _
  split at h
  · rename_i e' hQ
    replace h : e' = e := Except.error.inj h
    subst h
    exact shape_ne_vf (resolve_error_shape hQ) _
  split at h
  · replace h := Except.error.inj h
    subst h
    exact vf_lit_ne '\'' _ rfl (by decide)
  · exact absurd h (by simp)

theorem generate_error_shape {w : World} {dir : String} {cfg : MachineConfig}
    {next : Nat} {used : List String} {e : ConfigError}
    (h : generate w dir cfg next used = .error e) :
    (∃ n c, e = .UnresolvedEnvironmentVariable n c) ∨
    (∃ p c, e = .UnresolvedFileVariable p c) := by
  unfold generate at h
  cases hr : resolve w dir cfg.id with
  | error e' =>
    rw [hr] at h
    replace h : e' = e := Except.error.inj h
    subst h
    exact resolve_error_shape hr
  | ok sid =>
    rw [hr] at h
    by_cases hs : sid ≠ "" <;> simp [hs] at h

theorem loop_length (defaults : MachineDefaultsConfig) (w : World) (dir : String) :
    ∀ (cfgs : List MachineConfig) (next : Nat) (used : List String)
      (out res : List MachineConfig),
    resolve_machine_loop defaults w dir cfgs next used out = .ok res →
    res.length = out.length + cfgs.length := by
  intro cfgs
  induction cfgs with
  | nil =>
    intro next used out res h
    simp only [resolve_machine_loop] at h
    simp [← Except.ok.inj h]
  | cons c rest ih =>
    intro next used out res h
    simp only [resolve_machine_loop] at h
    cases hg : generate w dir c next used with
    | error e => rw [hg] at h; simp at h
    | ok r =>
      obtain ⟨id, next', used'⟩ := r
      rw [hg] at h
      replace h : (match resolve_ssh_config id defaults.ssh c.ssh w dir with
        | Except.error e => Except.error e
        | Except.ok ssh =>
          resolve_machine_loop defaults w dir rest next' used'
            (out ++ [⟨id, ssh, resolve_runners_config defaults.runners c.runners⟩]))
          = Except.ok res := h
      cases hs : resolve_ssh_config id defaults.ssh c.ssh w dir with
      | error e => rw [hs] at h; simp at h
      | ok ssh =>
        rw [hs] at h
        have := ih next' used'
          (out ++ [⟨id, ssh, resolve_runners_config defaults.runners c.runners⟩]) res h
        simp at this
        simp [this]
        omega

theorem loop_error_ne (defaults : MachineDefaultsConfig) (w : World) (dir : String) :
    ∀ (cfgs : List MachineConfig) (next : Nat) (used : List String)
      (out : List MachineConfig) (e : ConfigError),
    resolve_machine_loop defaults w dir cfgs next used out = .error e →
    e ≠ .ValidationFailure emptyMachinesMsg := by
  intro cfgs
  induction cfgs with
  | nil =>
    intro next used out e h
    simp [resolve_machine_loop] at h
  | cons c rest ih =>
    intro next used out e h
    simp only [resolve_machine_loop] at h
    cases hg : generate w dir c next used with
    | error e' =>
      rw [hg] at h
      replace h : e' = e := Except.error.inj h
      subst h
      exact shape_ne_vf (generate_error_shape hg) _
    | ok r =>
      obtain ⟨id, next', used'⟩ := r
      rw [hg] at h
      replace h : (match resolve_ssh_config id defaults.ssh c.ssh w dir with
        | Except.error e => Except.error e
        | Except.ok ssh =>
          resolve_machine_loop defaults w dir rest next' used'
            (out ++ [⟨id, ssh, resolve_runners_config defaults.runners c.runners⟩]))
          = Except.error e := h
      cases hs : resolve_ssh_config id defaults.ssh c.ssh w dir with
      | error e' =>
        rw [hs] at h
        replace h : e' = e := Except.error.inj h
        subst h
        exact ssh_error_ne hs
      | ok ssh =>
        rw [hs] at h
        exact ih next' used' _ e h

theorem resolve_machine_configs_eq1 {defaults : MachineDefaultsConfig}
    {cfgs : List MachineConfig} {w : World} {dir : String} {e : ConfigError}
    (hc : collectIds cfgs [] = .error e) :
    resolve_machine_configs defaults cfgs w dir = .error e := by
  unfold resolve_machine_configs
  rw [hc]

theorem resolve_machine_configs_eq2 {defaults : MachineDefaultsConfig}
    {cfgs : List MachineConfig} {w : World} {dir : String} {used0 : List String}
    (hc : collectIds cfgs [] = .ok used0) :
    resolve_machine_configs defaults cfgs w dir =
      (match resolve_machine_loop defaults w dir cfgs 1 used0 [] with
       | Except.error e => Except.error e
       | Except.ok out =>
         if out.isEmpty = true then .error (.ValidationFailure emptyMachinesMsg)
         else .ok (List.insertionSort machineLe out)) := by
  unfold resolve_machine_configs
  rw [hc]

/-- C8: an empty raw machine list is rejected with a ValidationFailure whose
message contains the words about needing at least one machine, and every
successful resolution returns a non-empty machine sequence sorted by machine
id (the source sorts with the stable Vec::sort_by under the lexicographic
String order). -/
theorem c8_sorted_nonempty (defaults : MachineDefaultsConfig) (cfgs : List MachineConfig)
    (w : World) (dir : String) :
    (cfgs = [] →
      resolve_machine_configs defaults cfgs w dir
        = .error (.ValidationFailure emptyMachinesMsg) ∧
      ∃ a b, emptyMachinesMsg = a ++ "at least one machine" ++ b) ∧
    (∀ out, resolve_machine_configs defaults cfgs w dir = .ok out →
      out ≠ [] ∧ List.Sorted machineLe out) := by
  constructor
  · rintro rfl
    exact ⟨rfl, "There must be ", " in the configuration.", rfl⟩
  · intro out h
    cases hc : collectIds cfgs [] with
    | error e => rw [resolve_machine_configs_eq1 hc] at h; simp at h
    | ok used0 =>
      rw [resolve_machine_configs_eq2 hc] at h
      cases hl : resolve_machine_loop defaults w dir cfgs 1 used0 [] with
      | error e => rw [hl] at h; simp at h
      | ok out0 =>
        rw [hl] at h
        replace h : (if out0.isEmpty = true then
            Except.error (ConfigError.ValidationFailure emptyMachinesMsg)
          else Except.ok (List.insertionSort machineLe out0)) = Except.ok out := h
        by_cases he : out0.isEmpty
        · rw [if_pos he] at h; simp at h
        · rw [if_neg he] at h
          replace h : List.insertionSort machineLe out0 = out := Except.ok.inj h
          subst h
          constructor
          · have hne : out0 ≠ [] := by
              cases out0
              · simp at he
              · simp
            have hlen := (List.perm_insertionSort machineLe out0).length_eq
            intro hnil
            rw [hnil] at hlen
            simp at hlen
            exact hne (List.length_eq_zero.mp hlen.symm)
          · haveI : IsTotal MachineConfig machineLe :=
              ⟨fun a b => lexLe_total a.id.data b.id.data⟩
            haveI : IsTrans MachineConfig machineLe :=
              ⟨fun a b c hab hbc => lexLe_trans _ _ _ hab hbc⟩
            exact List.sorted_insertionSort machineLe out0

/-- C8 witness: the empty list fails with the expected message; a two-machine
list resolves to a non-empty sorted sequence. -/
theorem c8_witness :
    resolve_machine_configs {} ([] : List MachineConfig)
      ⟨fun _ => .error "NP", fun _ => .error "NF"⟩ "."
      = .error (.ValidationFailure emptyMachinesMsg) ∧
    ∃ out, resolve_machine_configs {}
        [{ id := "b", ssh := { host := "h", username := "u", password := "p" } },
         { id := "a", ssh := { host := "h", username := "u", password := "p" } }]
        ⟨fun _ => .error "NP", fun _ => .error "NF"⟩ "." = .ok out ∧
      out ≠ [] ∧ List.Sorted machineLe out := by
  constructor
  · exact ((c8_sorted_nonempty {} []
      ⟨fun _ => .error "NP", fun _ => .error "NF"⟩ ".").1 rfl).1
  · refine ⟨_, rfl, ?_⟩
    exact (c8_sorted_nonempty {}
      [{ id := "b", ssh := { host := "h", username := "u", password := "p" } },
       { id := "a", ssh := { host := "h", username := "u", password := "p" } }]
      ⟨fun _ => .error "NP", fun _ => .error "NF"⟩ ".").2 _ rfl

/-- C10: a successful machine-list resolution returns exactly one entry per raw
machine (the lengths agree), and the empty-machine-list ValidationFailure is
returned only when the raw machine list is empty. -/
theorem c10_machine_count (defaults : MachineDefaultsConfig) (cfgs : List MachineConfig)
    (w : World) (dir : String) :
    (∀ out, resolve_machine_configs defaults cfgs w dir = .ok out →
      out.length = cfgs.length) ∧
    (resolve_machine_configs defaults cfgs w dir
        = .error (.ValidationFailure emptyMachinesMsg) → cfgs = []) := by
  constructor
  · intro out h
    cases hc : collectIds cfgs [] with
    | error e => rw [resolve_machine_configs_eq1 hc] at h; simp at h
    | ok used0 =>
      rw [resolve_machine_configs_eq2 hc] at h
      cases hl : resolve_machine_loop defaults w dir cfgs 1 used0 [] with
      | error e => rw [hl] at h; simp at h
      | ok out0 =>
        rw [hl] at h
        replace h : (if out0.isEmpty = true then
            Except.error (ConfigError.ValidationFailure emptyMachinesMsg)
          else Except.ok (List.insertionSort machineLe out0)) = Except.ok out := h
        by_cases he : out0.isEmpty
        · rw [if_pos he] at h; simp at h
        · rw [if_neg he] at h
          replace h : List.insertionSort machineLe out0 = out := Except.ok.inj h
          subst h
          have h1 := (List.perm_insertionSort machineLe out0).length_eq
          have h2 := loop_length defaults w dir cfgs 1 used0 [] out0 hl
          simp at h2
          omega
  · intro h
    cases hc : collectIds cfgs [] with
    | error e =>
      rw [resolve_machine_configs_eq1 hc] at h
      replace h : e = .ValidationFailure emptyMachinesMsg := Except.error.inj h
      obtain ⟨id, hne, hshape⟩ := collectIds_error_shape cfgs [] e hc
      rw [hshape] at h
      exact absurd h (vf_lit_ne 'A' _ rfl (by decide))
    | ok used0 =>
      rw [resolve_machine_configs_eq2 hc] at h
      cases hl : resolve_machine_loop defaults w dir cfgs 1 used0 [] with
      | error e =>
        rw [hl] at h
        replace h : e = .ValidationFailure emptyMachinesMsg := Except.error.inj h
        exact absurd h (loop_error_ne defaults w dir cfgs 1 used0 [] e hl)
      | ok out0 =>
        rw [hl] at h
        replace h : (if out0.isEmpty = true then
            Except.error (ConfigError.ValidationFailure emptyMachinesMsg)
          else Except.ok (List.insertionSort machineLe out0))
            = Except.error (.ValidationFailure emptyMachinesMsg) := h
        by_cases he : out0.isEmpty
        · have h0 : out0 = [] := by
            cases out0
            · rfl
            · simp at he
          have h2 := loop_length defaults w dir cfgs 1 used0 [] out0 hl
          rw [h0] at h2
          simp at h2
          exact List.length_eq_zero.mp h2.symm
        · rw [if_neg he] at h
          simp at h

/-- C10 witness: a singleton machine list resolves to one machine; the
empty-machine-list failure at the empty list. -/
theorem c10_witness :
    (∃ out, resolve_machine_configs {}
        [{ id := "a", ssh := { host := "h", username := "u", password := "p" } }]
        ⟨fun _ => .error "NP", fun _ => .error "NF"⟩ "." = .ok out ∧
      out.length = 1) ∧
    ([] : List MachineConfig) = [] := by
  constructor
  · refine ⟨_, rfl, ?_⟩
    exact (c10_machine_count {}
      [{ id := "a", ssh := { host := "h", username := "u", password := "p" } }]
      ⟨fun _ => .error "NP", fun _ => .error "NF"⟩ ".").1 _ rfl
  · exact (c10_machine_count {} []
      ⟨fun _ => .error "NP", fun _ => .error "NF"⟩ ".").2 rfl

/-- C3: the claim that the pre-scan works on post-substitution ids is false on
the code: MachineIdGenerator::new collects the RAW id strings, before any
substitution. Two machines whose raw ids differ but resolve to the same
non-empty string are not rejected: here the raw ids are a token and a
literal, both resolve to the same string, and resolution succeeds with two
identical machine ids in the output. -/
theorem c3_counterexample :
    resolve ⟨fun n => if n = "X" then .ok "lit" else .error "NotPresent",
             fun _ => .error "NotFound"⟩ "." "${X}" = .ok "lit" ∧
    Except.map (List.map MachineConfig.id)
      (resolve_machine_configs {}
        [{ id := "${X}", ssh := { host := "h", username := "u", password := "p" } },
         { id := "lit", ssh := { host := "h", username := "u", password := "p" } }]
        ⟨fun n => if n = "X" then .ok "lit" else .error "NotPresent",
         fun _ => .error "NotFound"⟩ ".")
      = .ok ["lit", "lit"] := by
  decide

/-- C3 (amended): before any per-machine resolution the engine pre-scans the
raw machine list collecting every explicit non-empty RAW (pre-substitution)
machine id, and fails immediately with a ValidationFailure whose message
contains the offending raw id whenever two machines share the same raw
explicit id. Machines whose distinct raw ids merely resolve to the same
string are not rejected. -/
theorem c3_amended (defaults : MachineDefaultsConfig) (w : World) (dir : String)
    (l1 l2 l3 : List MachineConfig) (c1 c2 : MachineConfig)
    (heq : c1.id = c2.id) (hne : c1.id ≠ "") :
    ∃ id, id ≠ "" ∧ id ∈ (l1 ++ (c1 :: (l2 ++ c2 :: l3))).map MachineConfig.id ∧
      (∃ a b, dupMsg id = a ++ id ++ b) ∧
      resolve_machine_configs defaults (l1 ++ (c1 :: (l2 ++ c2 :: l3))) w dir
        = .error (.ValidationFailure (dupMsg id)) := by
  obtain ⟨id, h1, h2, h3⟩ := collectIds_error_of_dup l1 c1 l2 c2 l3 [] heq hne
  refine ⟨id, h1, ?_, ⟨"A duplicate machine ID '", "' was found.", rfl⟩, ?_⟩
  · rcases h2 with h | h
    · exact h
    · simp at h
  · unfold resolve_machine_configs
    rw [h3]

/-- C3 witness: two machines with the same raw explicit id are rejected with
the duplicate-id message naming that id. -/
theorem c3_witness :
    ∃ id, id ≠ "" ∧
      id ∈ ([] ++ (({ id := "x", ssh := { host := "h", username := "u", password := "p" } }
          : MachineConfig)
        :: ([] ++ ({ id := "x", ssh := { host := "h2", username := "u2", password := "p2" } }
          : MachineConfig)
        :: []))).map MachineConfig.id ∧
      (∃ a b, dupMsg id = a ++ id ++ b) ∧
      resolve_machine_configs {}
        ([] ++ (({ id := "x", ssh := { host := "h", username := "u", password := "p" } }
            : MachineConfig)
          :: ([] ++ ({ id := "x", ssh := { host := "h2", username := "u2", password := "p2" } }
            : MachineConfig)
          :: [])))
        ⟨fun _ => .error "NP", fun _ => .error "NF"⟩ "."
        = .error (.ValidationFailure (dupMsg id)) :=
  c3_amended {} ⟨fun _ => .error "NP", fun _ => .error "NF"⟩ "." [] [] []
    { id := "x", ssh := { host := "h", username := "u", password := "p" } }
    { id := "x", ssh := { host := "h2", username := "u2", password := "p2" } }
    rfl (by decide)

theorem loop_ids_nodup (defaults : MachineDefaultsConfig) (w : World) (dir : String) :
    ∀ (cfgs : List MachineConfig) (next : Nat) (used : List String)
      (out res : List MachineConfig),
    (∀ d ∈ cfgs, resolve w dir d.id = .ok d.id) →
    (out.map MachineConfig.id).Nodup →
    (∀ i ∈ out.map MachineConfig.id, i ∈ used) →
    (∀ d ∈ cfgs, d.id ≠ "" → d.id ∈ used ∧ d.id ∉ out.map MachineConfig.id) →
    (explicitIds cfgs).Nodup →
    resolve_machine_loop defaults w dir cfgs next used out = .ok res →
    (res.map MachineConfig.id).Nodup := by
  intro cfgs
  induction cfgs with
  | nil =>
    intro next used out res _ hnd _ _ _ h
    simp only [resolve_machine_loop] at h
    rw [← Except.ok.inj h]
    exact hnd
  | cons c rest ih =>
    intro next used out res hfix hnd hsub hrem hexp h
    simp only [resolve_machine_loop] at h
    have hres : resolve w dir c.id = .ok c.id := hfix c (by simp)
    by_cases hc : c.id = ""
    · -- synthesized id
      obtain ⟨k, hk, hfree⟩ := exists_unclaimed used next
      obtain ⟨m, hm1, hm2, hm3, hm4⟩ :=
        genFresh_spec (used.length + 1) next used ⟨k, by omega, hfree⟩
      have hgen : generate w dir c next used
          = .ok (machineIdNum m, m, used ++ [machineIdNum m]) := by
        unfold generate
        rw [hres, hc]
        simp only [ne_eq, not_true_eq_false, if_false]
        rw [hm3]
      rw [hgen] at h
      replace h : (match resolve_ssh_config (machineIdNum m) defaults.ssh c.ssh w dir with
        | Except.error e => Except.error e
        | Except.ok ssh =>
          resolve_machine_loop defaults w dir rest m (used ++ [machineIdNum m])
            (out ++ [⟨machineIdNum m, ssh,
              resolve_runners_config defaults.runners c.runners⟩]))
          = Except.ok res := h
      cases hs : resolve_ssh_config (machineIdNum m) defaults.ssh c.ssh w dir with
      | error e => rw [hs] at h; simp at h
      | ok ssh =>
        rw [hs] at h
        refine ih m (used ++ [machineIdNum m])
          (out ++ [⟨machineIdNum m, ssh, resolve_runners_config defaults.runners c.runners⟩])
          res (fun d hd => hfix d (by simp [hd])) ?_ ?_ ?_ ?_ h
        · rw [List.map_append, List.nodup_append]
          refine ⟨hnd, by simp, ?_⟩
          intro a ha hb
          simp at hb
          subst hb
          exact hm2 (hsub _ ha)
        · intro i hi
          rw [List.map_append] at hi
          rcases List.mem_append.mp hi with hi | hi
          · exact List.mem_append_left _ (hsub i hi)
          · simp at hi
            subst hi
            exact List.mem_append_right _ (by simp)
        · intro d hd hdne
          obtain ⟨hd1, hd2⟩ := hrem d (by simp [hd]) hdne
          refine ⟨List.mem_append_left _ hd1, ?_⟩
          rw [List.map_append]
          intro hmem
          rcases List.mem_append.mp hmem with hmem | hmem
          · exact hd2 hmem
          · simp at hmem
            rw [hmem] at hd1
            exact hm2 hd1
        · rw [explicitIds_cons, if_pos hc] at hexp
          exact hexp
    · -- explicit id kept verbatim
      have hgen : generate w dir c next used = .ok (c.id, next, used) := by
        unfold generate
        rw [hres]
        simp [hc]
      rw [hgen] at h
      replace h : (match resolve_ssh_config c.id defaults.ssh c.ssh w dir with
        | Except.error e => Except.error e
        | Except.ok ssh =>
          resolve_machine_loop defaults w dir rest next used
            (out ++ [⟨c.id, ssh, resolve_runners_config defaults.runners c.runners⟩]))
          = Except.ok res := h
      obtain ⟨hcu, hco⟩ := hrem c (by simp) hc
      rw [explicitIds_cons, if_neg hc] at hexp
      have hcexp : c.id ∉ explicitIds rest := (List.nodup_cons.mp hexp).1
      have hexp' : (explicitIds rest).Nodup := (List.nodup_cons.mp hexp).2
      cases hs : resolve_ssh_config c.id defaults.ssh c.ssh w dir with
      | error e => rw [hs] at h; simp at h
      | ok ssh =>
        rw [hs] at h
        refine ih next used
          (out ++ [⟨c.id, ssh, resolve_runners_config defaults.runners c.runners⟩])
          res (fun d hd => hfix d (by simp [hd])) ?_ ?_ ?_ hexp' h
        · rw [List.map_append, List.nodup_append]
          refine ⟨hnd, by simp, ?_⟩
          intro a ha hb
          simp at hb
          subst hb
          exact hco ha
        · intro i hi
          rw [List.map_append] at hi
          rcases List.mem_append.mp hi with hi | hi
          · exact hsub i hi
          · simp at hi
            subst hi
            exact hcu
        · intro d hd hdne
          obtain ⟨hd1, hd2⟩ := hrem d (by simp [hd]) hdne
          refine ⟨hd1, ?_⟩
          rw [List.map_append]
          intro hmem
          rcases List.mem_append.mp hmem with hmem | hmem
          · exact hd2 hmem
          · simp at hmem
            exact hcexp (hmem ▸ mem_explicitIds hd hdne)

/-- C4: the claim that no two machines are ever assigned the same id is false
on the code: the id set holds RAW ids, while a machine's explicit id is used
in its resolved form. Here the first machine's raw id is a token resolving to
machine-1 and the second machine has no id; the generator does not see the
resolved form in its set, synthesizes machine-1 again, and resolution
succeeds with two machines of the same id. -/
theorem c4_counterexample :
    Except.map (List.map MachineConfig.id)
      (resolve_machine_configs {}
        [{ id := "${X}", ssh := { host := "h", username := "u", password := "p" } },
         { id := "", ssh := { host := "h", username := "u", password := "p" } }]
        ⟨fun n => if n = "X" then .ok "machine-1" else .error "NotPresent",
         fun _ => .error "NotFound"⟩ ".")
      = .ok ["machine-1", "machine-1"] := by
  decide

/-- C4 (amended): ids are assigned in document order; a machine whose id
resolves to a non-empty string keeps it verbatim, every other machine gets
machine-n from a monotonically increasing counter starting at 1, skipping any
value in the id set (raw explicit ids and earlier synthesized ids) and
reserving the chosen value before the next machine is processed. Provided
every machine's id field is substitution-free — its id resolves to itself —
no two machines in a successful resolution are assigned the same id. -/
theorem c4_amended (defaults : MachineDefaultsConfig) (cfgs : List MachineConfig)
    (w : World) (dir : String)
    (hfix : ∀ d ∈ cfgs, resolve w dir d.id = .ok d.id) :
    ∀ out, resolve_machine_configs defaults cfgs w dir = .ok out →
      (out.map MachineConfig.id).Nodup := by
  intro out h
  cases hc : collectIds cfgs [] with
  | error e => rw [resolve_machine_configs_eq1 hc] at h; simp at h
  | ok used0 =>
    rw [resolve_machine_configs_eq2 hc] at h
    cases hl : resolve_machine_loop defaults w dir cfgs 1 used0 [] with
    | error e => rw [hl] at h; simp at h
    | ok out0 =>
      rw [hl] at h
      replace h : (if out0.isEmpty = true then
          Except.error (ConfigError.ValidationFailure emptyMachinesMsg)
        else Except.ok (List.insertionSort machineLe out0)) = Except.ok out := h
      by_cases he : out0.isEmpty
      · rw [if_pos he] at h; simp at h
      · rw [if_neg he] at h
        replace h : List.insertionSort machineLe out0 = out := Except.ok.inj h
        subst h
        have hused : used0 = explicitIds cfgs := by
          simpa using collectIds_ok_eq cfgs [] used0 hc
        have hnd0 : used0.Nodup := collectIds_ok_nodup cfgs [] used0 List.nodup_nil hc
        have h0 := loop_ids_nodup defaults w dir cfgs 1 used0 [] out0 hfix (by simp)
          (by simp)
          (fun d hd hdne => ⟨by rw [hused]; exact mem_explicitIds hd hdne, by simp⟩)
          (hused ▸ hnd0) hl
        have hperm := (List.perm_insertionSort machineLe out0).map MachineConfig.id
        exact (List.Perm.nodup_iff hperm).mpr h0

/-- C4 witness: a substitution-free machine list resolves with pairwise
distinct ids. -/
theorem c4_witness :
    ∃ out, resolve_machine_configs {}
      [{ id := "machine-1", ssh := { host := "h", username := "u", password := "p" } },
       { id := "", ssh := { host := "h", username := "u", password := "p" } }]
      ⟨fun _ => .error "NP", fun _ => .error "NF"⟩ "." = .ok out ∧
      (out.map MachineConfig.id).Nodup := by
  refine ⟨_, rfl, ?_⟩
  exact c4_amended {}
    [{ id := "machine-1", ssh := { host := "h", username := "u", password := "p" } },
     { id := "", ssh := { host := "h", username := "u", password := "p" } }]
    ⟨fun _ => .error "NP", fun _ => .error "NF"⟩ "." (by decide) _ rfl

end GhScaler
